import Mathlib

/-!
# Verification of the SF2 parsing / zone-resolution engine and the voice scheduler

Shallow embedding of the core of the ESP32-S3 SF2 sampler firmware
(`SF2Parser.cpp/.h`, `synth.cpp`, `voice.cpp/.h`, `adsr.cpp`, `channel.h`,
`operators.h`, `config.h`).

Modelling conventions:
* 16-bit generator amounts are carried as their raw bit pattern (`Nat < 2^16`);
  the C union accessors `sAmount`, `uAmount`, `range.lo/hi` are functions of
  the raw pattern, exactly as on the little-endian target.
* `float` quantities computed by exact-in-float rational scalings are modelled
  as `ℚ`.  `float` quantities produced by transcendental conversions
  (`timecentsToSec`, `centsToHz`, `powf(10, -x/200)`) are modelled by the
  symbolic type `FVal`, which records the conversion applied and its argument;
  no claim below depends on their numeric magnitude.
* `uint32_t` arithmetic is carried out in `Int`/`Nat` with explicit reduction
  modulo `2^32` where the source can wrap.
-/

set_option maxHeartbeats 1000000

namespace SF2

/-- Symbolic value of a `float` produced by one of the parser's transcendental
unit conversions; `q` embeds floats obtained by exact rational computation. -/
inductive FVal where
  | q (x : ℚ)
  | timecents (tc : Int)
  | centsHz (c : Int)
  | centibels (cb : Int)
  deriving DecidableEq, Repr

/-- `timecentsToSec` from SF2Parser.cpp: clamps to 0 for `tc <= -32768`,
otherwise `2^(tc/1200)` seconds (kept symbolic). -/
def timecentsToSec (tc : Int) : FVal :=
  if tc ≤ -32768 then .q 0 else .timecents tc

/-- `centsToHz` from SF2Parser.cpp: `8.176 * 2^(c/1200)` (kept symbolic). -/
def centsToHz (c : Int) : FVal := .centsHz c

/-- `powf(10.0f, -cb/200.0f)` used for centibel values (kept symbolic). -/
def cbToLevel (cb : Int) : FVal := .centibels cb

/-- A raw SF2 generator record: operator id plus the raw 16-bit amount word.
The C `union` members are the accessor functions below. -/
structure Generator where
  oper : Nat
  raw  : Nat
  deriving DecidableEq, Repr

/-- `amount.sAmount`: the raw word reinterpreted as a signed 16-bit integer. -/
def sAmount (raw : Nat) : Int :=
  if raw % 65536 < 32768 then (raw % 65536 : Int) else (raw % 65536 : Int) - 65536

/-- `amount.uAmount`: the raw word as an unsigned 16-bit integer. -/
def uAmount (raw : Nat) : Nat := raw % 65536

/-- `amount.range.lo`: low byte of the raw word (little-endian layout). -/
def rangeLo (raw : Nat) : Nat := raw % 256

/-- `amount.range.hi`: high byte of the raw word. -/
def rangeHi (raw : Nat) : Nat := raw / 256 % 256

/-- `SampleHeader` (SF2Parser.h).  `data` is the owned PCM buffer, modelled by
the identity (index) of the sample whose allocation produced the buffer, or
`none` for a null pointer.  The name field is irrelevant to every claim and
omitted. -/
structure SampleHeader where
  start      : Nat := 0
  sampleEnd  : Nat := 0   -- field `end` in the source; `end` is reserved in Lean
  startLoop  : Nat := 0
  endLoop    : Nat := 0
  sampleRate : Nat := 0
  originalPitch : Nat := 0
  pitchCorrection : Int := 0
  sampleLink : Nat := 0
  sampleType : Nat := 0
  data : Option Nat := none
  dataSize : Nat := 0
  deriving DecidableEq, Repr

/-- The resolved `Zone` (SF2Parser.h) with the source's field defaults.
`sample` is the index of the referenced `SampleHeader` (a pointer in C++). -/
structure Zone where
  velLo : Nat := 0
  velHi : Nat := 127
  keyLo : Nat := 0
  keyHi : Nat := 127
  sample : Option Nat := none
  rootKey : Int := -1
  sampleModes : Nat := 0
  exclusiveClass : Nat := 0
  fineTune : ℚ := 0
  coarseTune : ℚ := 0
  attackTime : FVal := .q 0
  holdTime : FVal := .q 0
  decayTime : FVal := .q 0
  sustainLevel : FVal := .q 1
  releaseTime : FVal := .q 0
  pan : ℚ := 0
  modAttackTime : FVal := .q 0
  modReleaseTime : FVal := .q 0
  modDecayTime : FVal := .q (-1/10)
  modSustainLevel : ℚ := 0
  attenuation : ℚ := 1
  modEnvToPitch : ℚ := 0
  vibLfoFreq : FVal := .q 0
  vibLfoDelay : FVal := .q 0
  vibLfoToPitch : ℚ := 0
  modLfoFreq : FVal := .q 0
  modLfoDelay : FVal := .q 0
  modLfoToPitch : ℚ := 0
  modLfoToVolume : FVal := .q 0
  modLfoToFilterFc : ℚ := 0
  filterFc : FVal := .q 13500
  filterQ : ℚ := 0
  reverbSend : ℚ := 0
  chorusSend : ℚ := 0
  loopStartOffset : Int := 0
  loopEndOffset : Int := 0
  loopStartCoarseOffset : Int := 0
  loopEndCoarseOffset : Int := 0
  deriving DecidableEq, Repr

/-- `SF2Zone`: the raw generator list of one preset/instrument bag. -/
structure SF2Zone where
  generators : List Generator := []
  deriving DecidableEq, Repr

/-- `SF2Instrument` (name omitted). -/
structure SF2Instrument where
  zones : List SF2Zone := []
  globalGenerators : List Generator := []
  deriving DecidableEq, Repr

/-- `SF2Preset` (name omitted). -/
structure SF2Preset where
  bank : Nat := 0
  program : Nat := 0
  zones : List SF2Zone := []
  globalGenerators : List Generator := []
  deriving DecidableEq, Repr

/-- The parsed state of `SF2Parser` that zone resolution reads. -/
structure ParserState where
  presets : List SF2Preset := []
  instruments : List SF2Instrument := []
  samples : List SampleHeader := []
  deriving DecidableEq, Repr

/-- `SF2Parser::resolveSample`: a valid id yields the sample, an invalid one a
null pointer.  `ns` is `samples.size()`. -/
def resolveSampleIdx (ns : Nat) (sampleID : Nat) : Option Nat :=
  if sampleID < ns then some sampleID else none

/-- One iteration of the `switch` in `SF2Parser::applyGenerators`: applies a
single generator to the zone.  `ns` is `samples.size()` (for `resolveSample`).
Operator ids are the raw values from operators.h; unknown ids fall through to
the source's `default:` and leave the zone unchanged. -/
def applyGen (ns : Nat) (z : Zone) (g : Generator) : Zone :=
  match g.oper with
  | 53 => { z with sample := resolveSampleIdx ns (uAmount g.raw) }    -- SampleID
  | 43 => { z with keyLo := rangeLo g.raw, keyHi := rangeHi g.raw }   -- KeyRange
  | 44 => { z with velLo := rangeLo g.raw, velHi := rangeHi g.raw }   -- VelRange
  | 58 => { z with rootKey := sAmount g.raw }                         -- OverridingRootKey
  | 54 => { z with sampleModes := uAmount g.raw }                     -- SampleModes
  | 2  => { z with loopStartOffset := sAmount g.raw }                 -- StartLoopAddrOffset
  | 3  => { z with loopEndOffset := sAmount g.raw }                   -- EndLoopAddrOffset
  | 45 => { z with loopStartCoarseOffset := sAmount g.raw }           -- StartLoopAddrCoarseOffset
  | 50 => { z with loopEndCoarseOffset := sAmount g.raw }             -- EndLoopAddrCoarseOffset
  | 57 => { z with exclusiveClass := uAmount g.raw }                  -- ExclusiveClass
  | 52 => { z with fineTune := (sAmount g.raw : ℚ) / 100 }            -- FineTune
  | 51 => { z with coarseTune := (sAmount g.raw : ℚ) }                -- CoarseTune
  | 34 => { z with attackTime := timecentsToSec (sAmount g.raw) }     -- AttackVolEnv
  | 35 => { z with holdTime := timecentsToSec (sAmount g.raw) }       -- HoldVolEnv
  | 36 => { z with decayTime := timecentsToSec (sAmount g.raw) }      -- DecayVolEnv
  | 37 => { z with sustainLevel := cbToLevel (sAmount g.raw) }        -- SustainVolEnv
  | 38 => { z with releaseTime := timecentsToSec (sAmount g.raw) }    -- ReleaseVolEnv
  | 26 => { z with modAttackTime := timecentsToSec (sAmount g.raw) }  -- AttackModEnv
  | 28 => { z with modDecayTime := timecentsToSec (sAmount g.raw) }   -- DecayModEnv
  | 30 => { z with modReleaseTime := timecentsToSec (sAmount g.raw) } -- ReleaseModEnv
  | 7  => { z with modEnvToPitch := (sAmount g.raw : ℚ) }             -- ModEnvToPitch
  | 29 => { z with modSustainLevel := (sAmount g.raw : ℚ) / 1000 }    -- SustainModEnv
  | 17 => { z with pan := (sAmount g.raw : ℚ) / 100 }                 -- Pan
  | 8  => { z with filterFc := centsToHz (sAmount g.raw) }            -- InitialFilterFc
  | 6  => { z with vibLfoToPitch := (sAmount g.raw : ℚ) }             -- VibLfoToPitch
  | 23 => { z with vibLfoDelay := timecentsToSec (sAmount g.raw) }    -- VibLfoDelay
  | 24 => { z with vibLfoFreq := centsToHz (sAmount g.raw) }          -- VibLfoFreq
  | 9  => { z with filterQ := (sAmount g.raw : ℚ) / 10 }              -- InitialFilterQ
  | 16 => { z with reverbSend := (sAmount g.raw : ℚ) / 1000 }         -- ReverbEffectsSend
  | 15 => { z with chorusSend := (sAmount g.raw : ℚ) / 1000 }         -- ChorusEffectsSend
  | 5  => { z with modLfoToPitch := (sAmount g.raw : ℚ) }             -- ModLfoToPitch
  | 10 => { z with modLfoToFilterFc := (sAmount g.raw : ℚ) }          -- ModLfoToFilterFc
  | 13 => { z with modLfoToVolume := cbToLevel (sAmount g.raw) }      -- ModLfoToVolume
  | 21 => { z with modLfoDelay := timecentsToSec (sAmount g.raw) }    -- ModLfoDelay
  | 22 => { z with modLfoFreq := centsToHz (sAmount g.raw) }          -- ModLfoFreq
  | _  => z

/-- The zero-send fixup at the end of `SF2Parser::applyGenerators`:
`if (!zone.chorusSend) chorusSend = 1.0f;` and likewise for reverb.
A float compares false exactly when it equals `0.0`. -/
def fixSends (z : Zone) : Zone :=
  { z with chorusSend := if z.chorusSend = 0 then 1 else z.chorusSend,
           reverbSend := if z.reverbSend = 0 then 1 else z.reverbSend }

/-- `SF2Parser::applyGenerators`: fold the generator list over the zone, then
apply the zero-send fixup. -/
def applyGenerators (ns : Nat) (gens : List Generator) (z : Zone) : Zone :=
  fixSends (gens.foldl (applyGen ns) z)

/-- Result of the scan over an instrument zone's generators inside
`getZonesForNote` (defaults `sampleIndex = -1`, full key/vel ranges). -/
structure IZScan where
  sampleIndex : Int := -1
  keyLo : Nat := 0
  keyHi : Nat := 127
  velLo : Nat := 0
  velHi : Nat := 127
  deriving DecidableEq, Repr

/-- The generator scan in the instrument-zone loop of `getZonesForNote`:
every generator is visited; `KeyRange`, `VelRange` and `SampleID` update the
running values (`sampleIndex` is read through the signed accessor). -/
def izoneScan (gens : List Generator) : IZScan :=
  gens.foldl
    (fun sc g =>
      match g.oper with
      | 43 => { sc with keyLo := rangeLo g.raw, keyHi := rangeHi g.raw }
      | 44 => { sc with velLo := rangeLo g.raw, velHi := rangeHi g.raw }
      | 53 => { sc with sampleIndex := sAmount g.raw }
      | _  => sc)
    {}

/-- The preset-zone scan of `getZonesForNote`: the index of the instrument
referenced by the first `Instrument` generator (signed accessor), `-1` if the
zone has none (the loop `break`s at the first match). -/
def instIndexOfPZone : List Generator → Int
  | [] => -1
  | g :: rest => if g.oper = 41 then sAmount g.raw else instIndexOfPZone rest

/-- Building one resolved zone in `getZonesForNote`: the zone is seeded from
the instrument-zone scan and the sample's original pitch, then the four
generator stages are applied in source order (preset-global, preset-zone,
instrument-global, instrument-zone). -/
def resolveZone (P : ParserState) (p : SF2Preset) (pz : SF2Zone)
    (inst : SF2Instrument) (iz : SF2Zone) (sc : IZScan) : Zone :=
  let s := P.samples.getD sc.sampleIndex.toNat {}
  let z0 : Zone :=
    { sample := some sc.sampleIndex.toNat,
      keyLo := sc.keyLo, keyHi := sc.keyHi,
      velLo := sc.velLo, velHi := sc.velHi,
      rootKey := (s.originalPitch : Int) }
  let ns := P.samples.length
  applyGenerators ns iz.generators
    (applyGenerators ns inst.globalGenerators
      (applyGenerators ns pz.generators
        (applyGenerators ns p.globalGenerators z0)))

/-- `SF2Parser::getZonesForNote`.  Presets are filtered by `(bank, program)`;
preset zones resolve an instrument through their first `Instrument` generator
(skipped when out of range); instrument zones are filtered by a valid
`SampleID` and by the key/velocity ranges read from their own generators.
Preset zones undergo no key/velocity filtering. -/
def getZonesForNote (P : ParserState) (note vel bank program : Nat) : List Zone :=
  P.presets.flatMap fun p =>
    if p.bank = bank ∧ p.program = program then
      p.zones.flatMap fun pz =>
        if instIndexOfPZone pz.generators < 0 then []
        else
          match P.instruments[(instIndexOfPZone pz.generators).toNat]? with
          | none => []
          | some inst =>
            inst.zones.filterMap fun iz =>
              if 0 ≤ (izoneScan iz.generators).sampleIndex ∧
                 (izoneScan iz.generators).sampleIndex.toNat < P.samples.length ∧
                 (izoneScan iz.generators).keyLo ≤ note ∧ note ≤ (izoneScan iz.generators).keyHi ∧
                 (izoneScan iz.generators).velLo ≤ vel ∧ vel ≤ (izoneScan iz.generators).velHi then
                some (resolveZone P p pz inst iz (izoneScan iz.generators))
              else none
    else []

/-- `SF2Parser::hasPreset`: linear existence check on `(bank, program)`. -/
def hasPreset (P : ParserState) (bank program : Nat) : Bool :=
  P.presets.any fun p => p.bank = bank ∧ p.program = program

/-! ## Sample loading (`SF2Parser::loadSampleDataToMemory`)

The entry checks (sdta offset, `smpl` chunk id) concern file plumbing; the
allocation loop is modelled.  The success of each `heap_caps_aligned_alloc`
call is an environment input, given as `alloc : Nat → Bool` indexed by the
sample position; a successful allocation for sample `i` yields buffer
identity `some i`. -/

/-- `uint32_t length = (s.end > s.start) ? (s.end - s.start) : 0;` -/
def sampleLen (s : SampleHeader) : Nat :=
  if s.start < s.sampleEnd then s.sampleEnd - s.start else 0

/-- The fallback branch: the failed sample takes the fallback's buffer and
all of its metadata fields (its name alone is kept). -/
def aliasTo (fb : SampleHeader) (s : SampleHeader) : SampleHeader :=
  { s with data := fb.data, dataSize := fb.dataSize, start := fb.start,
           sampleEnd := fb.sampleEnd, startLoop := fb.startLoop,
           endLoop := fb.endLoop, sampleRate := fb.sampleRate,
           originalPitch := fb.originalPitch,
           pitchCorrection := fb.pitchCorrection, sampleLink := fb.sampleLink,
           sampleType := fb.sampleType }

/-- A successfully loaded sample: owns buffer `i`, `dataSize = length * 2`. -/
def allocated (i : Nat) (s : SampleHeader) : SampleHeader :=
  { s with data := some i, dataSize := sampleLen s * 2 }

/-- The allocation loop.  `i` is the index of the head of the remaining list,
`fb` the fallback (the first successfully loaded sample, as stored).  Returns
`none` when an allocation fails with no fallback available (the source's
`return false`). -/
def loadSamplesGo (alloc : Nat → Bool) : Nat → Option SampleHeader →
    List SampleHeader → Option (List SampleHeader)
  | _, _, [] => some []
  | i, fb, s :: rest =>
    if sampleLen s = 0 then
      (loadSamplesGo alloc (i + 1) fb rest).map (s :: ·)
    else if alloc i then
      (loadSamplesGo alloc (i + 1)
        (match fb with | none => some (allocated i s) | some f => some f)
        rest).map (allocated i s :: ·)
    else
      match fb with
      | some f => (loadSamplesGo alloc (i + 1) (some f) rest).map (aliasTo f s :: ·)
      | none => none

/-- `SF2Parser::loadSampleDataToMemory`, allocation loop from an empty
fallback. -/
def loadSampleDataToMemory (alloc : Nat → Bool) (samples : List SampleHeader) :
    Option (List SampleHeader) :=
  loadSamplesGo alloc 0 none samples

/-- The allocation outcome of the first nonzero-length sample the loop
reaches (`none` when every sample is zero-length): `some false` means the
loop hits an allocation failure before any sample has succeeded. -/
def firstAllocOutcome (alloc : Nat → Bool) : Nat → List SampleHeader → Option Bool
  | _, [] => none
  | i, s :: rest =>
    if sampleLen s = 0 then firstAllocOutcome alloc (i + 1) rest
    else if alloc i then some true else some false

/-- The fallback in effect after the loop has run over a prefix: the first
sample of the prefix that allocated successfully (in its stored form), or the
incoming fallback. -/
def fbAfter (alloc : Nat → Bool) : Nat → Option SampleHeader →
    List SampleHeader → Option SampleHeader
  | _, fb, [] => fb
  | i, fb, s :: rest =>
    if sampleLen s = 0 then fbAfter alloc (i + 1) fb rest
    else if alloc i then
      fbAfter alloc (i + 1) (match fb with | none => some (allocated i s) | some f => some f) rest
    else fbAfter alloc (i + 1) fb rest

/-! ## Envelope (`adsr.cpp`), voice (`voice.cpp/.h`) and scheduler (`synth.cpp`)

`config.h`: `MAX_VOICES = 19`, `MAX_VOICES_PER_NOTE = 2`,
`SAMPLE_RATE = 44100`. -/

def MAX_VOICES : Nat := 19
def MAX_VOICES_PER_NOTE : Nat := 2

/-- The transcendental float computations of the envelope code, abstracted:
`fv` evaluates a symbolic float value, `timeCoeff t` stands for adsr.cpp's
`1 - expf(-1/(0.2*t*sr))` and `attackCoeff t` for its attack-shape variant.
All theorems below are proved for every oracle, hence in particular for the
values the target's floating-point unit produces. -/
structure FloatOracle where
  fv : FVal → ℚ
  timeCoeff : ℚ → ℚ
  attackCoeff : ℚ → ℚ

/-- Envelope segments stored in `mode_` (adsr.cpp); the SUSTAIN segment is
only virtual (displayed by `getCurrentSegment`, never stored). -/
inductive ASeg where
  | idle | attack | hold | decay | release | fastRelease | semiFastRelease
  deriving DecidableEq, Repr

/-- `eEnd_t` hardness values used by `retrigger`/`end`. -/
inductive AEnd where
  | now | fast | semiFast | regular
  deriving DecidableEq, Repr

/-- The `Adsr` state.  Numeric fields are the stored `float`s as `ℚ`; the
coefficient fields receive oracle-supplied values.  The source leaves
`target_`/`D0_` unset until `end`/`retrigger`; the defaults stand for that
indeterminate initial content. -/
structure Adsr where
  mode : ASeg := .idle
  gate : Bool := false
  x : ℚ := 0
  target : ℚ := 0
  d0 : ℚ := 1
  susLevel : ℚ := 1
  attackTarget : ℚ := 101/100
  attackD0 : ℚ := 1
  decayD0 : ℚ := 1
  releaseD0 : ℚ := 1
  fastReleaseD0 : ℚ := 1
  semiFastReleaseD0 : ℚ := 1
  holdSamples : Nat := 0
  holdCounter : Nat := 0
  deriving DecidableEq, Repr

/-- `setTimeConstant`: `1 - expf(-1/(0.2*t*sr))` for `t > 0`, else `1`
(instant change). -/
def tcCoeff (fo : FloatOracle) (t : ℚ) : ℚ :=
  if 0 < t then fo.timeCoeff t else 1

/-- `Adsr::init(SAMPLE_RATE)`: zeroed state plus the default segment times
(attack 0, hold 0.05, decay 0.05, release 0.05, fast release 0.0005,
semi-fast release 0.02 seconds); attack time 0 gives coefficient 1, hold
0.05 s gives 2205 samples at 44100 Hz. -/
def adsrInit (fo : FloatOracle) : Adsr :=
  { mode := .idle, gate := false, x := 0, target := 0, d0 := 1,
    susLevel := 1, attackTarget := 101/100, attackD0 := 1,
    decayD0 := tcCoeff fo (1/20), releaseD0 := tcCoeff fo (1/20),
    fastReleaseD0 := tcCoeff fo (1/2000), semiFastReleaseD0 := tcCoeff fo (1/50),
    holdSamples := 2205, holdCounter := 2205 }

/-- `Adsr::setAttackTime` (shape is always `0.0f` here, so the attack target
is `9*0^10 + 0.3*0 + 1.01 = 1.01`). -/
def adsrSetAttackTime (fo : FloatOracle) (t : ℚ) (e : Adsr) : Adsr :=
  { e with attackTarget := 101/100,
           attackD0 := if 0 < t then fo.attackCoeff t else 1 }

/-- `Adsr::setDecayTime`. -/
def adsrSetDecayTime (fo : FloatOracle) (t : ℚ) (e : Adsr) : Adsr :=
  { e with decayD0 := tcCoeff fo t }

/-- `Adsr::setReleaseTime`. -/
def adsrSetReleaseTime (fo : FloatOracle) (t : ℚ) (e : Adsr) : Adsr :=
  { e with releaseD0 := tcCoeff fo t }

/-- `Adsr::setHoldTime`: `(uint32_t)(t * sample_rate)` for `t > 0`, else 0;
the cast truncates, i.e. takes the floor of a positive value. -/
def adsrSetHoldTime (t : ℚ) (e : Adsr) : Adsr :=
  if 0 < t then
    { e with holdSamples := (t * 44100).floor.toNat,
             holdCounter := (t * 44100).floor.toNat }
  else { e with holdSamples := 0, holdCounter := 0 }

/-- Modelled from the spec: `setSustainLevel` is declared in `adsr.h`, which
is not under src/; per the spec the sustain level parameter is stored for the
decay/sustain stages, so it is modelled as the plain assignment
`sus_level_ = level`. -/
def adsrSetSustainLevel (l : ℚ) (e : Adsr) : Adsr :=
  { e with susLevel := l }

/-- `Adsr::retrigger`. -/
def adsrRetrigger (e : Adsr) (h : AEnd) : Adsr :=
  let e := { e with gate := true, mode := .attack }
  match h with
  | .now => { e with x := 0, d0 := e.attackD0 }
  | _ => { e with d0 := e.attackD0 }

/-- `Adsr::end`. -/
def adsrEnd (e : Adsr) (h : AEnd) : Adsr :=
  let e := { e with gate := false, target := -1/10 }
  match h with
  | .now => { e with mode := .idle, d0 := e.attackD0, x := 0 }
  | .fast => { e with mode := .fastRelease, d0 := e.fastReleaseD0 }
  | .semiFast => { e with mode := .semiFastRelease, d0 := e.semiFastReleaseD0 }
  | .regular => { e with mode := .release, d0 := e.releaseD0 }

/-- `Adsr::process`: one envelope step, returning the output level and the
new state. -/
def adsrProcess (e : Adsr) : ℚ × Adsr :=
  match e.mode with
  | .idle => (0, e)
  | .attack =>
    if 1 ≤ e.x + e.d0 * (e.attackTarget - e.x) then
      if 0 < e.holdSamples then
        (1, { e with x := 1, mode := .hold, holdCounter := e.holdSamples })
      else
        (1, { e with x := 1, mode := .decay, target := e.susLevel, d0 := e.decayD0 })
    else
      (e.x + e.d0 * (e.attackTarget - e.x),
       { e with x := e.x + e.d0 * (e.attackTarget - e.x) })
  | .hold =>
    if 0 < e.holdCounter then (e.x, { e with holdCounter := e.holdCounter - 1 })
    else (e.x, { e with mode := .decay,
                        target := e.susLevel - (e.x - e.susLevel) / 10,
                        d0 := e.decayD0 })
  | _ =>
    if e.x + e.d0 * (e.target - e.x) < 0 then
      (0, { e with mode := .idle, x := 0, target := -1/10, d0 := e.attackD0 })
    else
      (e.x + e.d0 * (e.target - e.x),
       { e with x := e.x + e.d0 * (e.target - e.x) })

/-- `Adsr::isIdle` (used by `nextSample`/`updateScore`): the envelope has
reached the idle segment. -/
def isIdleA (e : Adsr) : Bool := e.mode = ASeg.idle

/-- Modelled from the spec: `isRunning` is declared in `adsr.h`, which is not
under src/.  The spec states the 0.1 score bias applies "once the voice's
envelope has entered release or gone idle"; release and idle segments are
exactly those entered with the gate cleared, so `isRunning` is modelled as
the gate flag. -/
def isRunningA (e : Adsr) : Bool := e.gate

/-- `MonoMode` from channel.h. -/
inductive MonoMode where
  | Poly | MonoLegato | MonoRetrig
  deriving DecidableEq, Repr

/-- `ChannelState` (channel.h) with the source's field initializers.
`isDrum` carries no initializer in the source; it is modelled `false`.
GUI-only activity metering and the filter/NRPN scratch fields, which no
modelled operation reads, are omitted. -/
structure ChannelState where
  isDrum : Bool := false
  portaTime : ℚ := 1/5
  volume : ℚ := 1
  expression : ℚ := 1
  pan : ℚ := 1/2
  modWheel : ℚ := 0
  portaCurrentNote : Nat := 60
  reverbSend : ℚ := 0
  chorusSend : ℚ := 0
  delaySend : ℚ := 0
  attackModifier : ℚ := 0
  releaseModifier : ℚ := 0
  sustainPedal : Bool := false
  portamento : Bool := false
  bankMSB : Nat := 0
  bankLSB : Nat := 0
  program : Nat := 0
  wantBankMSB : Nat := 0
  wantBankLSB : Nat := 0
  wantProgram : Nat := 0
  monoMode : MonoMode := .Poly
  noteStack : List Nat := []
  deriving DecidableEq, Repr

/-- `pushNote`: append while fewer than 8 entries are held. -/
def pushNote (c : ChannelState) (note : Nat) : ChannelState :=
  if c.noteStack.length < 8 then { c with noteStack := c.noteStack ++ [note] } else c

/-- `removeNote`: delete the first occurrence, shifting the rest down. -/
def removeNote (c : ChannelState) (note : Nat) : ChannelState :=
  { c with noteStack := c.noteStack.erase note }

/-- `topNote`: last pushed note, `0xFF` when empty. -/
def topNote (c : ChannelState) : Nat :=
  (c.noteStack.getLast?).getD 255

/-- `hasNotes`. -/
def hasNotes (c : ChannelState) : Bool := ¬c.noteStack.isEmpty

/-- `getBank() = (bankMSB << 7) | bankLSB`. -/
def getBank (c : ChannelState) : Nat := (c.bankMSB <<< 7) ||| c.bankLSB

/-- `getWantBank() = (wantBankMSB << 7) | wantBankLSB`. -/
def getWantBank (c : ChannelState) : Nat := (c.wantBankMSB <<< 7) ||| c.wantBankLSB

/-- `setBank`: split into 7-bit MSB/LSB. -/
def setBank (c : ChannelState) (bank : Nat) : ChannelState :=
  { c with bankMSB := (bank >>> 7) &&& 127, bankLSB := bank &&& 127 }

/-- The per-voice state read by the scheduler.  Pure audio-path fields
(phase, pan scalars, pitch/LFO/portamento factors) influence neither the
scheduler's control flow nor any claim and are omitted; `sample` is the
index of the bound `SampleHeader`. -/
structure Voice where
  active : Bool := false
  channel : Nat := 0
  note : Nat := 0
  velocity : Nat := 0
  exclusiveClass : Nat := 0
  noteHeld : Bool := false
  score : ℚ := 0
  velocityVolume : ℚ := 1
  reverbAmount : ℚ := 0
  chorusAmount : ℚ := 0
  ampEnv : Adsr := {}
  zone : Zone := {}
  sample : Option Nat := none
  length : Nat := 0
  loopStart : Nat := 0
  loopEnd : Nat := 0
  loopLength : Nat := 0
  loopType : Nat := 0
  deriving DecidableEq, Repr

def U32 : Nat := 4294967296

/-- Reduce an `Int` to its `uint32_t` bit pattern. -/
def i2u32 (x : Int) : Nat := (x % (U32 : Int)).toNat

/-- `uint32_t` subtraction (wraps modulo `2^32`). -/
def u32sub (a b : Nat) : Nat := i2u32 ((a : Int) - b)

/-- Modelled from the spec: the `UNUSED` constant compared against the masked
loop type in `Voice::prepareStart` comes from a header that is not part of
this repository.  The spec's loop-degradation rule mentions only the bound
checks, and the compared value is masked to two bits, so `UNUSED` is
modelled as a marker outside `0..3`; the comparison never succeeds. -/
def UNUSED_MODE : Nat := 4

def NO_LOOP : Nat := 0
def FORWARD_LOOP : Nat := 1

/-- `Voice::prepareStart` (voice.cpp), restricted to the fields modelled on
`Voice`.  `s` is the dereferenced `zone.sample` header (callers skip zones
with a null sample).  The loop fields follow the source's `uint32_t`
arithmetic: the source additionally tests `loopStart < 0` and
`loopLength <= 0`, but both operands are `uint32_t`, so the first test is
identically false and the second collapses to an equality with zero. -/
def prepareStart (fo : FloatOracle) (ch note_ vel : Nat) (z : Zone)
    (s : SampleHeader) (chan : ChannelState) (v : Voice) : Voice :=
  let e := v.ampEnv
  let e := adsrSetAttackTime fo (fo.fv z.attackTime * chan.attackModifier) e
  let e := adsrSetDecayTime fo (fo.fv z.decayTime) e
  let e := adsrSetHoldTime (fo.fv z.holdTime) e
  let e := adsrSetSustainLevel (fo.fv z.sustainLevel) e
  let e := adsrSetReleaseTime fo (fo.fv z.releaseTime * chan.releaseModifier) e
  let loopStartOff : Int := z.loopStartOffset + z.loopStartCoarseOffset * 32768
  let loopEndOff : Int := z.loopEndOffset + z.loopEndCoarseOffset * 32768
  let lengthV := u32sub s.sampleEnd s.start
  let loopStartV := i2u32 ((s.startLoop : Int) + loopStartOff - (s.start : Int))
  let loopEndV := i2u32 ((s.endLoop : Int) + loopEndOff - (s.start : Int))
  let loopLengthV := u32sub loopEndV loopStartV
  let lt := z.sampleModes &&& 3
  let lt := if lt = UNUSED_MODE ∨ lengthV < loopEndV ∨ loopLengthV = 0 then NO_LOOP else lt
  { v with
    zone := z, sample := z.sample,
    note := note_, velocity := vel, channel := ch,
    noteHeld := true,
    exclusiveClass := z.exclusiveClass,
    velocityVolume := (vel : ℚ) / 127 * z.attenuation,
    reverbAmount := z.reverbSend * chan.reverbSend,
    chorusAmount := z.chorusSend * chan.chorusSend,
    ampEnv := e,
    length := lengthV, loopStart := loopStartV, loopEnd := loopEndV,
    loopLength := loopLengthV, loopType := lt }

/-- `Voice::startNew`: prepare, hard-retrigger the envelope, mark active. -/
def startNew (fo : FloatOracle) (ch note_ vel : Nat) (z : Zone)
    (s : SampleHeader) (chan : ChannelState) (v : Voice) : Voice :=
  let v := prepareStart fo ch note_ vel z s chan v
  { v with ampEnv := adsrRetrigger v.ampEnv .now, active := true }

/-- `Voice::die`: fast release; the active flag is NOT cleared (it clears
only when `nextSample` observes the envelope idle). -/
def die (v : Voice) : Voice :=
  { v with noteHeld := false, ampEnv := adsrEnd v.ampEnv .fast }

/-- `Voice::kill`: immediate mute, deactivates at once. -/
def kill (v : Voice) : Voice :=
  { v with noteHeld := false, active := false, ampEnv := adsrEnd v.ampEnv .now }

/-- `Voice::stop`: regular release unless the channel's sustain pedal is
down. -/
def stopVoice (sustain : Bool) (v : Voice) : Voice :=
  if ¬sustain then { v with noteHeld := false, ampEnv := adsrEnd v.ampEnv .regular }
  else v

/-- `Voice::updatePitchOnly`, restricted to the modelled fields: rebinds the
voice to the new note (the pitch factors it recomputes are audio-path
only). -/
def updatePitchOnly (newNote : Nat) (v : Voice) : Voice :=
  { v with note := newNote }

/-- `Voice::updateScore`: advances the envelope once and caches
`env * velocityVolume`, biased by 0.1 once the envelope is no longer running
or has gone idle. -/
def updateScore (v : Voice) : Voice :=
  if ¬v.active ∨ v.sample = none then { v with score := 0 }
  else
    let p := adsrProcess v.ampEnv
    let sc := p.1 * v.velocityVolume
    let sc := if ¬isRunningA p.2 ∨ isIdleA p.2 then sc / 10 else sc
    { v with ampEnv := p.2, score := sc }

/-- The loop body of `Synth::findWeakestVoiceOnNote` over the voice pool:
on every active voice of the channel, a voice sharing the nonzero exclusive
class is sent `die()`; voices on the same note are counted, re-scored, and
the strictly weakest (first minimum) is tracked.  Returns the transformed
pool, the count and the tracked minimum. -/
def findWeakestGo (ch n X : Nat) : Nat → Nat → Option (Nat × ℚ) →
    List Voice → List Voice × Nat × Option (Nat × ℚ)
  | _, count, best, [] => ([], count, best)
  | idx, count, best, v :: rest =>
    let v1 := if v.active ∧ v.channel = ch ∧ 0 < v.exclusiveClass ∧ v.exclusiveClass = X
              then die v else v
    if v1.active ∧ v1.channel = ch ∧ v1.note = n then
      let v2 := updateScore v1
      let best' := match best with
        | none => some (idx, v2.score)
        | some (j, sc) => if v2.score < sc then some (idx, v2.score) else some (j, sc)
      let r := findWeakestGo ch n X (idx + 1) (count + 1) best' rest
      (v2 :: r.1, r.2)
    else
      let r := findWeakestGo ch n X (idx + 1) count best rest
      (v1 :: r.1, r.2)

/-- `Synth::findWeakestVoiceOnNote`: the weakest same-note voice is returned
only when the pair already holds at least `MAX_VOICES_PER_NOTE` active
voices (the `newScore` argument is unused — the comparison against it is
commented out in the source). -/
def findWeakestVoiceOnNote (voices : List Voice) (ch n : Nat) (_newScore : ℚ)
    (X : Nat) : List Voice × Option Nat :=
  let r := findWeakestGo ch n X 0 0 none voices
  (r.1, if MAX_VOICES_PER_NOTE ≤ r.2.1 then r.2.2.map (·.1) else none)

/-- `Synth::findWorstVoice`: re-scores voices in index order, returning the
first inactive or no-longer-running voice immediately; otherwise the voice
with the strictly smallest score. -/
def findWorstGo : Nat → Option (Nat × ℚ) → List Voice → List Voice × Option Nat
  | _, best, [] => ([], best.map (·.1))
  | idx, best, v :: rest =>
    let v' := updateScore v
    if ¬v'.active ∨ ¬isRunningA v'.ampEnv then (v' :: rest, some idx)
    else
      let best' := match best with
        | none => some (idx, v'.score)
        | some (j, sc) => if v'.score < sc then some (idx, v'.score) else some (j, sc)
      let r := findWorstGo (idx + 1) best' rest
      (v' :: r.1, r.2)

/-- `Synth::allocateVoice`: weakest on the note, else globally worst. -/
def allocateVoice (voices : List Voice) (ch n : Nat) (newScore : ℚ) (X : Nat) :
    List Voice × Option Nat :=
  let r := findWeakestVoiceOnNote voices ch n newScore X
  match r.2 with
  | some i => (r.1, some i)
  | none => findWorstGo 0 none r.1

/-- The synthesizer state: 16 channels, the fixed pool of `MAX_VOICES`
voices, and the parsed SoundFont. -/
structure SynthState where
  channels : List ChannelState := List.replicate 16 {}
  voices : List Voice := []
  parser : ParserState := {}
  deriving Repr

/-- One iteration of the per-zone allocation loop shared by the `noteOn`
branches: a zone without a sample is skipped; otherwise a voice is allocated
and restarted on the zone. -/
def startZoneStep (fo : FloatOracle) (ch note_ vel : Nat) (st : SynthState)
    (z : Zone) : SynthState :=
  if z.sample = none then st
  else
    let r := allocateVoice st.voices ch note_ ((vel : ℚ) / 127) z.exclusiveClass
    match r.2 with
    | none => { st with voices := r.1 }
    | some i =>
      let chan := st.channels.getD ch {}
      let sampleH := st.parser.samples.getD (z.sample.getD 0) {}
      { st with voices := r.1.set i (startNew fo ch note_ vel z sampleH chan (r.1.getD i {})) }

/-- The per-zone allocation loop of `noteOn`. -/
def startZones (fo : FloatOracle) (ch note_ vel : Nat) (zones : List Zone)
    (s : SynthState) : SynthState :=
  zones.foldl (startZoneStep fo ch note_ vel) s

/-- `Synth::noteOff` (synth.cpp). -/
def noteOff (s : SynthState) (ch note_ : Nat) : SynthState :=
  if 16 ≤ ch then s
  else
    let chan := s.channels.getD ch {}
    let isMono := chan.monoMode ≠ .Poly
    let isRetrig := chan.monoMode = .MonoRetrig
    let chan1 := removeNote chan note_
    let nextNote := topNote chan1
    let s1 := { s with channels := s.channels.set ch chan1 }
    let voices' := s1.voices.map fun v =>
      if ¬v.active ∨ v.channel ≠ ch then v
      else if isMono then
        if ¬hasNotes chan1 then stopVoice chan1.sustainPedal { v with noteHeld := false }
        else if isRetrig then
          if v.note = note_ then die { v with noteHeld := false } else v
        else
          if v.note ≠ nextNote then updatePitchOnly nextNote v else v
      else
        if v.note = note_ then stopVoice chan1.sustainPedal { v with noteHeld := false } else v
    { s1 with voices := voices' }

/-- `Synth::noteOn` (synth.cpp).  Velocity zero delegates to `noteOff`.
Indexing `channels[ch]` with `ch ≥ 16` is out of bounds in the source
(callers only pass decoded 4-bit channels); it is modelled as a no-op.
GUI blocking and activity metering are not modelled. -/
def noteOn (fo : FloatOracle) (s : SynthState) (ch note_ vel : Nat) : SynthState :=
  if vel = 0 then noteOff s ch note_
  else if 16 ≤ ch then s
  else
    let chan := s.channels.getD ch {}
    let isMono := chan.monoMode ≠ .Poly
    let retrig := chan.monoMode ≠ .MonoLegato
    let zones := getZonesForNote s.parser note_ vel (getBank chan) chan.program
    if zones.isEmpty then s
    else
      let chan1 := pushNote chan note_
      let s1 := { s with channels := s.channels.set ch chan1 }
      let s2 :=
        if isMono then
          if retrig then
            let killed :=
              { s1 with voices := s1.voices.map fun v =>
                  if v.active ∧ v.channel = ch then die v else v }
            startZones fo ch note_ vel zones killed
          else
            let anyHeld := s1.voices.any fun v => v.active ∧ v.channel = ch ∧ v.noteHeld
            let s1' :=
              { s1 with voices := s1.voices.map fun v =>
                  if v.active ∧ v.channel = ch then
                    if ¬v.noteHeld then die v else updatePitchOnly note_ v
                  else v }
            if anyHeld then s1' else startZones fo ch note_ vel zones s1'
        else startZones fo ch note_ vel zones s1
      let chanF := { s2.channels.getD ch {} with portaCurrentNote := note_ }
      { s2 with channels := s2.channels.set ch chanF }

/-- `Synth::setChannelMode`: set the mono mode and clear the note stack. -/
def setChannelMode (s : SynthState) (ch : Nat) (m : MonoMode) : SynthState :=
  let c := { s.channels.getD ch {} with monoMode := m, noteStack := [] }
  { s with channels := s.channels.set ch c }

/-- The drum-channel test at the top of `Synth::applyBankProgram`:
`ch == 9 || wantBankMSB == 127 || wantBankMSB == 120 || bank == 128`. -/
def isDrumChannel (ch : Nat) (c : ChannelState) : Bool :=
  ch = 9 ∨ c.wantBankMSB = 127 ∨ c.wantBankMSB = 120 ∨ getWantBank c = 128

/-- `Synth::applyBankProgram` acting on one channel's state (`ch` is the
channel number, needed for drum detection).  The note stack is cleared, the
drum flag recomputed, then the fallback chain runs on `hasPreset`: the
requested bank, then — for melodic channels only — bank 0 with the same
program, then program 0 at bank 128 (drum) or 0 (melodic); no match leaves
bank and program untouched. -/
def applyBankProgram (P : ParserState) (ch : Nat) (c0 : ChannelState) : ChannelState :=
  let c := { c0 with noteStack := [], isDrum := isDrumChannel ch c0 }
  if hasPreset P (getWantBank c0) c0.wantProgram then
    setBank { c with program := c0.wantProgram } (getWantBank c0)
  else if ¬isDrumChannel ch c0 ∧ hasPreset P 0 c0.wantProgram then
    setBank { c with program := c0.wantProgram } 0
  else
    if hasPreset P (if isDrumChannel ch c0 then 128 else 0) 0 then
      setBank { c with program := 0 } (if isDrumChannel ch c0 then 128 else 0)
    else c

/-- `Synth::programChange`: record the wanted program (masked to 7 bits) and
resolve through `applyBankProgram`. -/
def programChange (P : ParserState) (ch : Nat) (program : Nat)
    (c : ChannelState) : ChannelState :=
  applyBankProgram P ch { c with wantProgram := program &&& 127 }

/-- The state after the `Synth` constructor and `Voice::init`: 16 default
channels and `MAX_VOICES` inactive voices with initialized envelopes. -/
def initSynth (fo : FloatOracle) (P : ParserState) : SynthState :=
  { channels := List.replicate 16 {},
    voices := List.replicate MAX_VOICES { ampEnv := adsrInit fo },
    parser := P }

/-- MIDI-driven scheduler operations considered by the claims. -/
inductive SynthOp where
  | on (ch note_ vel : Nat)
  | off (ch note_ : Nat)
  | mode (ch : Nat) (m : MonoMode)
  deriving DecidableEq, Repr

/-- Run a sequence of scheduler operations. -/
def runOps (fo : FloatOracle) : SynthState → List SynthOp → SynthState
  | s, [] => s
  | s, op :: rest =>
    let s' := match op with
      | .on ch n v => noteOn fo s ch n v
      | .off ch n => noteOff s ch n
      | .mode ch m => setChannelMode s ch m
    runOps fo s' rest

/-- A voice is active and bound to the (channel, note) pair. -/
def onPair (ch n : Nat) (v : Voice) : Bool :=
  v.active && v.channel == ch && v.note == n

/-- Number of active voices bound to the pair. -/
def countOn (vs : List Voice) (ch n : Nat) : Nat := vs.countP (onPair ch n)

/-! ## Generator application: per-field readers and written values -/

/-- The operator ids the `switch` of `applyGenerators` recognizes (all other
ids hit `default:` and set nothing). -/
def settableOps : List Nat :=
  [53, 43, 44, 58, 54, 2, 3, 45, 50, 57, 52, 51, 34, 35, 36, 37, 38,
   26, 28, 30, 7, 29, 17, 8, 6, 23, 24, 9, 16, 15, 5, 10, 13, 21, 22]

/-- The loop start/end fine and coarse offset operators. -/
def offsetOps : List Nat := [2, 3, 45, 50]

/-- Value of one resolved-zone field, tagged by its type. -/
inductive ZVal where
  | n (v : Nat)
  | i (v : Int)
  | q (v : ℚ)
  | f (v : FVal)
  | pr (lo hi : Nat)
  | os (v : Option Nat)
  deriving DecidableEq, Repr

/-- Read the zone field written by operator `op` (`none` for unrecognized
operators). -/
def reader (op : Nat) (z : Zone) : Option ZVal :=
  match op with
  | 53 => some (.os z.sample)
  | 43 => some (.pr z.keyLo z.keyHi)
  | 44 => some (.pr z.velLo z.velHi)
  | 58 => some (.i z.rootKey)
  | 54 => some (.n z.sampleModes)
  | 2  => some (.i z.loopStartOffset)
  | 3  => some (.i z.loopEndOffset)
  | 45 => some (.i z.loopStartCoarseOffset)
  | 50 => some (.i z.loopEndCoarseOffset)
  | 57 => some (.n z.exclusiveClass)
  | 52 => some (.q z.fineTune)
  | 51 => some (.q z.coarseTune)
  | 34 => some (.f z.attackTime)
  | 35 => some (.f z.holdTime)
  | 36 => some (.f z.decayTime)
  | 37 => some (.f z.sustainLevel)
  | 38 => some (.f z.releaseTime)
  | 26 => some (.f z.modAttackTime)
  | 28 => some (.f z.modDecayTime)
  | 30 => some (.f z.modReleaseTime)
  | 7  => some (.q z.modEnvToPitch)
  | 29 => some (.q z.modSustainLevel)
  | 17 => some (.q z.pan)
  | 8  => some (.f z.filterFc)
  | 6  => some (.q z.vibLfoToPitch)
  | 23 => some (.f z.vibLfoDelay)
  | 24 => some (.f z.vibLfoFreq)
  | 9  => some (.q z.filterQ)
  | 16 => some (.q z.reverbSend)
  | 15 => some (.q z.chorusSend)
  | 5  => some (.q z.modLfoToPitch)
  | 10 => some (.q z.modLfoToFilterFc)
  | 13 => some (.f z.modLfoToVolume)
  | 21 => some (.f z.modLfoDelay)
  | 22 => some (.f z.modLfoFreq)
  | _  => none

/-- The value `applyGen` writes for operator `op` and raw amount `raw`
(before the end-of-pass send fixup). -/
def genWrite (ns op raw : Nat) : Option ZVal :=
  match op with
  | 53 => some (.os (resolveSampleIdx ns (uAmount raw)))
  | 43 => some (.pr (rangeLo raw) (rangeHi raw))
  | 44 => some (.pr (rangeLo raw) (rangeHi raw))
  | 58 => some (.i (sAmount raw))
  | 54 => some (.n (uAmount raw))
  | 2  => some (.i (sAmount raw))
  | 3  => some (.i (sAmount raw))
  | 45 => some (.i (sAmount raw))
  | 50 => some (.i (sAmount raw))
  | 57 => some (.n (uAmount raw))
  | 52 => some (.q ((sAmount raw : ℚ) / 100))
  | 51 => some (.q (sAmount raw : ℚ))
  | 34 => some (.f (timecentsToSec (sAmount raw)))
  | 35 => some (.f (timecentsToSec (sAmount raw)))
  | 36 => some (.f (timecentsToSec (sAmount raw)))
  | 37 => some (.f (cbToLevel (sAmount raw)))
  | 38 => some (.f (timecentsToSec (sAmount raw)))
  | 26 => some (.f (timecentsToSec (sAmount raw)))
  | 28 => some (.f (timecentsToSec (sAmount raw)))
  | 30 => some (.f (timecentsToSec (sAmount raw)))
  | 7  => some (.q (sAmount raw : ℚ))
  | 29 => some (.q ((sAmount raw : ℚ) / 1000))
  | 17 => some (.q ((sAmount raw : ℚ) / 100))
  | 8  => some (.f (centsToHz (sAmount raw)))
  | 6  => some (.q (sAmount raw : ℚ))
  | 23 => some (.f (timecentsToSec (sAmount raw)))
  | 24 => some (.f (centsToHz (sAmount raw)))
  | 9  => some (.q ((sAmount raw : ℚ) / 10))
  | 16 => some (.q ((sAmount raw : ℚ) / 1000))
  | 15 => some (.q ((sAmount raw : ℚ) / 1000))
  | 5  => some (.q (sAmount raw : ℚ))
  | 10 => some (.q (sAmount raw : ℚ))
  | 13 => some (.f (cbToLevel (sAmount raw)))
  | 21 => some (.f (timecentsToSec (sAmount raw)))
  | 22 => some (.f (centsToHz (sAmount raw)))
  | _  => none

/-- The field value a pass resolves for its last `op` generator, including
the end-of-pass zero-send fixup for the two effect-send operators. -/
def genResolved (ns op raw : Nat) : Option ZVal :=
  match op with
  | 16 => some (.q (if (sAmount raw : ℚ) / 1000 = 0 then 1 else (sAmount raw : ℚ) / 1000))
  | 15 => some (.q (if (sAmount raw : ℚ) / 1000 = 0 then 1 else (sAmount raw : ℚ) / 1000))
  | _ => genWrite ns op raw

/-! ## Predicates used by the scheduler claims -/

/-- A voice cut off by `die()`: note no longer held, envelope gate cleared,
segment fast-release (or already idle, once a later `updateScore` stepped the
envelope below zero). -/
def diedFast (v : Voice) : Prop :=
  v.noteHeld = false ∧ v.ampEnv.gate = false ∧
    (v.ampEnv.mode = ASeg.fastRelease ∨ v.ampEnv.mode = ASeg.idle)

/-- Every channel is in `Poly` mode. -/
def allPoly (s : SynthState) : Prop :=
  ∀ c ∈ s.channels, c.monoMode = MonoMode.Poly

/-- Every (channel, note) pair holds at most `MAX_VOICES_PER_NOTE` active
voices. -/
def pairBounded (s : SynthState) : Prop :=
  ∀ ch n, countOn s.voices ch n ≤ MAX_VOICES_PER_NOTE

/-- An operation list free of mode changes. -/
def onOffOnly (ops : List SynthOp) : Bool :=
  ops.all fun op => match op with | .mode _ _ => false | _ => true

/-- Pointwise equality of the scheduler-relevant binding of a voice. -/
def sameBind (v w : Voice) : Prop :=
  w.active = v.active ∧ w.channel = v.channel ∧ w.note = v.note ∧
    w.exclusiveClass = v.exclusiveClass

/-- What the scan helpers (`die`, `updateScore`) do to a voice: they keep
its binding and never revive a cut-off voice. -/
def ctrlStep (v w : Voice) : Prop :=
  sameBind v w ∧ (diedFast v → diedFast w)

/-- Every active voice of the pool bound to channel `ch` with exclusive
class `X`, other than voices on note `n`, has been cut off. -/
def exclCut (ch X n : Nat) (vs : List Voice) : Prop :=
  ∀ v ∈ vs, v.active = true → v.channel = ch → v.exclusiveClass = X →
    v.note ≠ n → diedFast v

/-- Every active voice of the pool bound to channel `ch` with exclusive
class `X` has been cut off. -/
def exclAll (ch X : Nat) (vs : List Voice) : Prop :=
  ∀ v ∈ vs, v.active = true → v.channel = ch → v.exclusiveClass = X → diedFast v

/-- Per-pair bound on a voice pool. -/
def pairBoundedL (vs : List Voice) : Prop :=
  ∀ ch n, countOn vs ch n ≤ MAX_VOICES_PER_NOTE

/-! ## Concrete instances used by counterexamples and witnesses -/

namespace Ex

/-- A concrete float oracle (any oracle works; theorems quantify over it). -/
def foW : FloatOracle :=
  { fv := fun v => match v with | .q x => x | _ => 1,
    timeCoeff := fun _ => 1, attackCoeff := fun _ => 1 }

/-- A 100-frame sample. -/
def sampleA : SampleHeader := { start := 0, sampleEnd := 100, sampleRate := 44100 }

/-- Parser state for C1: one preset whose zone carries `KeyRange [0,10]` and
`Instrument 0`; instrument 0 has one zone with only `SampleID 0`. -/
def P1 : ParserState :=
  { presets := [{ bank := 0, program := 0, zones := [⟨[⟨43, 2560⟩, ⟨41, 0⟩]⟩] }],
    instruments := [{ zones := [⟨[⟨53, 0⟩]⟩] }],
    samples := [sampleA] }

/-- The single zone `getZonesForNote` returns for note 60 on `P1`. -/
def z1 : Zone := (getZonesForNote P1 60 100 0 0).headD {}

/-- Parser state for C3: three instrument zones keyed to notes 10, 11, 12;
the latter two carry exclusive class 1. -/
def P3 : ParserState :=
  { presets := [{ bank := 0, program := 0, zones := [⟨[⟨41, 0⟩]⟩] }],
    instruments := [{ zones :=
      [⟨[⟨43, 2570⟩, ⟨53, 0⟩]⟩,
       ⟨[⟨43, 2827⟩, ⟨57, 1⟩, ⟨53, 0⟩]⟩,
       ⟨[⟨43, 3084⟩, ⟨57, 1⟩, ⟨53, 0⟩]⟩] }],
    samples := [sampleA] }

/-- Parser state for C5: two full-range instrument zones, so every note
resolves to two layered zones. -/
def P5 : ParserState :=
  { presets := [{ bank := 0, program := 0, zones := [⟨[⟨41, 0⟩]⟩] }],
    instruments := [{ zones := [⟨[⟨53, 0⟩]⟩, ⟨[⟨53, 0⟩]⟩] }],
    samples := [sampleA] }

/-- Parser state for C6: the only preset is (bank 0, program 5). -/
def P6 : ParserState := { presets := [{ bank := 0, program := 5 }] }

/-- Channel wanting (bank 128, program 5) — a drum request. -/
def c6 : ChannelState := { wantBankMSB := 1, wantProgram := 5 }

/-- Channel wanting (bank 256, program 5) — a melodic request. -/
def c6m : ChannelState := { wantBankMSB := 2, wantProgram := 5 }

/-- A sounding voice: active on channel 0, note 11, exclusive class 1. -/
def v1ex : Voice :=
  { active := true, channel := 0, note := 11, velocity := 100,
    exclusiveClass := 1, noteHeld := true, sample := some 0,
    ampEnv := { gate := true } }

/-- C3 scenario: a pool holding one sounding class-1 voice on note 11
(slot 1), then a `noteOn` for note 12 whose zone also carries class 1. -/
def s3pre : SynthState :=
  { channels := List.replicate 16 {},
    voices := (List.replicate MAX_VOICES ({} : Voice)).set 1 v1ex,
    parser := P3 }

def s3post : SynthState := noteOn foW s3pre 0 12 100

/-- The voice left behind by the exclusive-class cutoff: still active,
class 1, note 11. -/
def v3died : Voice := s3post.voices.getD 1 {}

/-- A synth over `P5` with an empty voice pool (used to instantiate the
amended C5 invariant). -/
def s5init0 : SynthState :=
  { channels := List.replicate 16 {}, voices := [], parser := P5 }

/-- A held voice on channel 0 bound to `n`, used to build layered pools. -/
def vHeld (n : Nat) : Voice :=
  { active := true, channel := 0, note := n, velocity := 100,
    noteHeld := true, sample := some 0, ampEnv := { gate := true } }

/-- C5 scenario: two layered voices on each of notes 60 and 64 (the state the
Poly scheduler reaches after two `noteOn`s over the two-layer preset `P5`,
each pair at the cap). -/
def s5mid : SynthState :=
  { channels := List.replicate 16 {},
    voices := [vHeld 60, vHeld 60, vHeld 64, vHeld 64] ++
      List.replicate (MAX_VOICES - 4) ({} : Voice),
    parser := P5 }

/-- Switching to `MonoLegato` and playing note 70 legato retunes all four
held voices onto (0, 70). -/
def s5post : SynthState :=
  runOps foW s5mid [.mode 0 .MonoLegato, .on 0 70 100]

/-- C4 failing input: loop points `startLoop = 100 > endLoop = 50` inside a
200-frame sample, with `sampleModes = 1` (forward loop) and no offsets. -/
def s4h : SampleHeader :=
  { start := 0, sampleEnd := 200, startLoop := 100, endLoop := 50, sampleRate := 44100 }

def z4 : Zone := { sample := some 0, sampleModes := 1 }

def v4 : Voice := prepareStart foW 0 60 100 z4 s4h {} {}

/-- C7 inputs: four samples (one zero-length), allocation succeeding only for
sample 0. -/
def ss7 : List SampleHeader :=
  [{ start := 0, sampleEnd := 10 }, { start := 0, sampleEnd := 5 },
   { start := 3, sampleEnd := 3 }, { start := 0, sampleEnd := 7 }]

def alloc7 : Nat → Bool := fun i => i == 0

/-- C7 failure input: allocation always fails. -/
def allocNone : Nat → Bool := fun _ => false

/-- The sample list `loadSampleDataToMemory` produces for `ss7`/`alloc7`. -/
def out7 : List SampleHeader := (loadSampleDataToMemory alloc7 ss7).getD []

end Ex

theorem reader_applyGen_self (ns : Nat) (z : Zone) (op raw : Nat)
    (hmem : op ∈ settableOps) :
    reader op (applyGen ns z ⟨op, raw⟩) = genWrite ns op raw := by
  fin_cases hmem <;> rfl

theorem reader_applyGen_other (ns : Nat) (z : Zone) (op : Nat) (g : Generator)
    (hmem : op ∈ settableOps) (hne : g.oper ≠ op) :
    reader op (applyGen ns z g) = reader op z := by
  fin_cases hmem <;>
    · unfold applyGen
      split <;> first | rfl | simp_all

theorem reader_foldl_other (ns : Nat) (op : Nat) (hmem : op ∈ settableOps) :
    ∀ (l : List Generator) (z : Zone), (∀ g ∈ l, g.oper ≠ op) →
      reader op (l.foldl (applyGen ns) z) = reader op z := by
  intro l
  induction l with
  | nil => intro z _; rfl
  | cons g rest ih =>
    intro z h
    have hg : g.oper ≠ op := h g (List.mem_cons_self ..)
    have hr : ∀ g' ∈ rest, g'.oper ≠ op := fun g' hg' => h g' (List.mem_cons_of_mem _ hg')
    simp only [List.foldl_cons]
    rw [ih _ hr, reader_applyGen_other ns z op g hmem hg]

theorem reader_fixSends_other (z : Zone) (op : Nat)
    (h15 : op ≠ 15) (h16 : op ≠ 16) :
    reader op (fixSends z) = reader op z := by
  unfold reader
  split <;> first | rfl | omega

theorem reader_fixSends_reverb (z : Zone) :
    reader 16 (fixSends z) = some (.q (if z.reverbSend = 0 then 1 else z.reverbSend)) := rfl

theorem reader_fixSends_chorus (z : Zone) :
    reader 15 (fixSends z) = some (.q (if z.chorusSend = 0 then 1 else z.chorusSend)) := rfl

/-- Core last-write lemma: in one `applyGenerators` pass, the field of a
recognized operator is resolved from the pass's last generator carrying that
operator, independently of the incoming zone. -/
theorem reader_applyGenerators_last (ns : Nat) (op raw : Nat)
    (l1 l2 : List Generator) (z : Zone)
    (hmem : op ∈ settableOps) (hl2 : ∀ g ∈ l2, g.oper ≠ op) :
    reader op (applyGenerators ns (l1 ++ ⟨op, raw⟩ :: l2) z) = genResolved ns op raw := by
  unfold applyGenerators
  rw [List.foldl_append, List.foldl_cons]
  have hfold := reader_foldl_other ns op hmem l2
    (applyGen ns (l1.foldl (applyGen ns) z) ⟨op, raw⟩) hl2
  have hself := reader_applyGen_self ns (l1.foldl (applyGen ns) z) op raw hmem
  by_cases h16 : op = 16
  · subst h16
    rw [reader_fixSends_reverb]
    have : (l2.foldl (applyGen ns) (applyGen ns (l1.foldl (applyGen ns) z) ⟨16, raw⟩)).reverbSend
        = (sAmount raw : ℚ) / 1000 := by
      have := hfold.trans hself
      simpa [reader, genWrite] using this
    rw [this]; rfl
  · by_cases h15 : op = 15
    · subst h15
      rw [reader_fixSends_chorus]
      have : (l2.foldl (applyGen ns) (applyGen ns (l1.foldl (applyGen ns) z) ⟨15, raw⟩)).chorusSend
          = (sAmount raw : ℚ) / 1000 := by
        have := hfold.trans hself
        simpa [reader, genWrite] using this
      rw [this]; rfl
    · rw [reader_fixSends_other _ op h15 h16, hfold, hself]
      unfold genResolved
      split <;> first | rfl | omega

theorem applyGenerators_sends_ne_zero (ns : Nat) (gens : List Generator) (z : Zone) :
    (applyGenerators ns gens z).reverbSend ≠ 0 ∧ (applyGenerators ns gens z).chorusSend ≠ 0 := by
  unfold applyGenerators fixSends
  constructor <;> · dsimp only; split <;> simp_all

/-- Provenance of every zone returned by `getZonesForNote`: it is resolved
from a matching preset, a preset zone with a valid instrument index, and an
instrument zone passing the sample/key/velocity filter. -/
theorem mem_getZonesForNote {P : ParserState} {note vel bank program : Nat} {z : Zone}
    (hz : z ∈ getZonesForNote P note vel bank program) :
    ∃ p ∈ P.presets, ∃ pz ∈ p.zones, ∃ inst,
      P.instruments[(instIndexOfPZone pz.generators).toNat]? = some inst ∧
      ∃ iz ∈ inst.zones,
        (0 ≤ (izoneScan iz.generators).sampleIndex ∧
         (izoneScan iz.generators).sampleIndex.toNat < P.samples.length ∧
         (izoneScan iz.generators).keyLo ≤ note ∧ note ≤ (izoneScan iz.generators).keyHi ∧
         (izoneScan iz.generators).velLo ≤ vel ∧ vel ≤ (izoneScan iz.generators).velHi) ∧
        p.bank = bank ∧ p.program = program ∧
        z = resolveZone P p pz inst iz (izoneScan iz.generators) := by
  unfold getZonesForNote at hz
  rw [List.mem_flatMap] at hz
  obtain ⟨p, hp, hz⟩ := hz
  split at hz
  case isFalse => simp at hz
  case isTrue hbp =>
    rw [List.mem_flatMap] at hz
    obtain ⟨pz, hpz, hz⟩ := hz
    split at hz
    case isTrue => simp at hz
    case isFalse hneg =>
      split at hz
      case h_1 => simp at hz
      case h_2 inst hinst =>
        rw [List.mem_filterMap] at hz
        obtain ⟨iz, hiz, hiz2⟩ := hz
        split at hiz2
        case isFalse => simp at hiz2
        case isTrue hcond =>
          refine ⟨p, hp, pz, hpz, inst, hinst, iz, hiz, hcond, hbp.1, hbp.2, ?_⟩
          exact (Option.some_inj.mp hiz2).symm

/-- `getBank` recovers the bank stored by `setBank` for any 14-bit bank. -/
theorem getBank_setBank (c : ChannelState) (b : Nat) (hb : b < 16384) :
    getBank (setBank c b) = b := by
  show ((b >>> 7) &&& 127) <<< 7 ||| (b &&& 127) = b
  have h2 : ∀ n : Nat, n &&& 127 = n % 128 := fun n => by
    simpa using Nat.and_pow_two_sub_one_eq_mod n 7
  have h1 : b >>> 7 = b / 128 := by simpa using Nat.shiftRight_eq_div_pow b 7
  have h128 : b / 128 % 128 = b / 128 := Nat.mod_eq_of_lt (by omega)
  rw [h1, h2, h2, h128, Nat.shiftLeft_eq]
  have hc : b / 128 * 2 ^ 7 = 2 ^ 7 * (b / 128) := by ring
  rw [hc, ← Nat.mul_add_lt_is_or (show b % 128 < 2 ^ 7 by omega) (b / 128)]
  omega

/-! ## Claim C1 -/

/-- C1, counterexample: `getZonesForNote` does not filter preset zones by
key/velocity range, and a preset-zone `KeyRange` generator overwrites the
resolved zone's range, so on `Ex.P1` the call for note 60 returns a zone
whose stored key range `[0,10]` does not contain 60 — refuting the claim
that every returned zone satisfies `keyLo ≤ note ≤ keyHi`. -/
theorem c1_counterexample :
    ¬(∀ z ∈ getZonesForNote Ex.P1 60 100 0 0,
        z.keyLo ≤ 60 ∧ 60 ≤ z.keyHi ∧ z.velLo ≤ 100 ∧ 100 ≤ z.velHi) := by
  decide

/-- C1 (amended): every zone returned by
`getZonesForNote(note, vel, bank, program)` originates from a preset matching
`(bank, program)` and from an instrument zone whose own key/velocity range as
read from its generators (defaulting to the full range 0–127) contains
`(note, vel)` and whose `SampleID` is valid; the zone is the result of
applying the four generator stages.  Preset zones are not filtered by
key/velocity range, and the stored range fields of the returned zone may be
overwritten by preset-level range generators. -/
theorem c1_amended (P : ParserState) (note vel bank program : Nat) (z : Zone)
    (hz : z ∈ getZonesForNote P note vel bank program) :
    ∃ p ∈ P.presets, ∃ pz ∈ p.zones, ∃ inst ∈ P.instruments, ∃ iz ∈ inst.zones,
      p.bank = bank ∧ p.program = program ∧
      (izoneScan iz.generators).keyLo ≤ note ∧ note ≤ (izoneScan iz.generators).keyHi ∧
      (izoneScan iz.generators).velLo ≤ vel ∧ vel ≤ (izoneScan iz.generators).velHi ∧
      0 ≤ (izoneScan iz.generators).sampleIndex ∧
      (izoneScan iz.generators).sampleIndex.toNat < P.samples.length ∧
      z = resolveZone P p pz inst iz (izoneScan iz.generators) := by
  obtain ⟨p, hp, pz, hpz, inst, hinst, iz, hiz, hf, hbank, hprog, hzeq⟩ :=
    mem_getZonesForNote hz
  exact ⟨p, hp, pz, hpz, inst, List.getElem?_mem hinst, iz, hiz, hbank, hprog,
    hf.2.2.1, hf.2.2.2.1, hf.2.2.2.2.1, hf.2.2.2.2.2, hf.1, hf.2.1, hzeq⟩

theorem c1_amended_witness :
    Ex.z1 ∈ getZonesForNote Ex.P1 60 100 0 0 ∧
    (∃ p ∈ Ex.P1.presets, ∃ pz ∈ p.zones, ∃ inst ∈ Ex.P1.instruments, ∃ iz ∈ inst.zones,
      p.bank = 0 ∧ p.program = 0 ∧
      (izoneScan iz.generators).keyLo ≤ 60 ∧ 60 ≤ (izoneScan iz.generators).keyHi ∧
      (izoneScan iz.generators).velLo ≤ 100 ∧ 100 ≤ (izoneScan iz.generators).velHi ∧
      0 ≤ (izoneScan iz.generators).sampleIndex ∧
      (izoneScan iz.generators).sampleIndex.toNat < Ex.P1.samples.length ∧
      Ex.z1 = resolveZone Ex.P1 p pz inst iz (izoneScan iz.generators)) :=
  have hmem : Ex.z1 ∈ getZonesForNote Ex.P1 60 100 0 0 := by
    rw [show getZonesForNote Ex.P1 60 100 0 0 = [Ex.z1] from rfl]
    exact List.mem_singleton_self _
  ⟨hmem, c1_amended Ex.P1 60 100 0 0 Ex.z1 hmem⟩

/-! ## Claim C2 -/

/-- C2: during zone resolution the four generator stages are applied in the
fixed order preset-global → preset-zone → instrument-global →
instrument-zone, and for every recognized non-offset generator the field is
resolved from the last stage's last generator carrying that operator,
regardless of every earlier stage (last write wins per field); in particular
an operator set at both instrument-global and instrument-zone scope resolves
to the instrument-zone value.  (`genResolved` maps the winning amount through
the operator's unit conversion, including the end-of-pass zero-send fixup for
the two effect-send operators.) -/
theorem c2_last_write_wins (ns : Nat) (z : Zone)
    (pgs pzs igs l1 l2 : List Generator) (op raw : Nat)
    (hmem : op ∈ settableOps) (_hoff : op ∉ offsetOps)
    (hl2 : ∀ g ∈ l2, g.oper ≠ op) :
    reader op
      (applyGenerators ns (l1 ++ ⟨op, raw⟩ :: l2)
        (applyGenerators ns igs
          (applyGenerators ns pzs
            (applyGenerators ns pgs z)))) = genResolved ns op raw :=
  reader_applyGenerators_last ns op raw l1 l2 _ hmem hl2

theorem c2_last_write_wins_witness :
    (58 ∈ settableOps) ∧ (58 ∉ offsetOps) ∧
    reader 58
      (applyGenerators 1 ([] ++ ⟨58, 62⟩ :: [⟨53, 0⟩])
        (applyGenerators 1 [⟨58, 60⟩]
          (applyGenerators 1 []
            (applyGenerators 1 [] {})))) = genResolved 1 58 62 :=
  ⟨by decide, by decide,
    c2_last_write_wins 1 {} [] [] [⟨58, 60⟩] [] [⟨53, 0⟩] 58 62
      (by decide) (by decide) (by decide)⟩

/-! ## Claim C8 -/

/-- C8, counterexample: the loop-offset generators are plainly assigned in
`applyGenerators`, so an instrument-global `StartLoopAddrOffset 5` followed
by an instrument-zone `StartLoopAddrOffset 7` resolves to 7, not to the sum
12 the claim asserts. -/
theorem c8_counterexample :
    (applyGenerators 0 [⟨2, 7⟩] (applyGenerators 0 [⟨2, 5⟩] ({} : Zone))).loopStartOffset = 7 ∧
    (applyGenerators 0 [⟨2, 7⟩] (applyGenerators 0 [⟨2, 5⟩] ({} : Zone))).loopStartOffset ≠ 5 + 7 := by
  decide

/-- C8 (amended): the four loop-offset generators behave like every other
generator — the value set by a later stage (or later generator in the same
list) overwrites the earlier one, with no summation anywhere in
`applyGenerators`; fine and coarse offsets are combined only in
`Voice::prepareStart` as `fine + (coarse << 15)`. -/
theorem c8_offsets_overwritten (ns : Nat) (z : Zone)
    (gGlobal l1 l2 : List Generator) (op raw : Nat)
    (hmem : op ∈ offsetOps) (hl2 : ∀ g ∈ l2, g.oper ≠ op) :
    reader op (applyGenerators ns (l1 ++ ⟨op, raw⟩ :: l2)
      (applyGenerators ns gGlobal z)) = some (.i (sAmount raw)) := by
  have hmem' : op ∈ settableOps := by fin_cases hmem <;> decide
  have h := reader_applyGenerators_last ns op raw l1 l2
    (applyGenerators ns gGlobal z) hmem' hl2
  rw [h]
  fin_cases hmem <;> rfl

theorem c8_offsets_overwritten_witness :
    (2 ∈ offsetOps) ∧
    reader 2 (applyGenerators 0 ([] ++ ⟨2, 7⟩ :: [])
      (applyGenerators 0 [⟨2, 5⟩] {})) = some (.i (sAmount 7)) :=
  ⟨by decide,
    c8_offsets_overwritten 0 {} [⟨2, 5⟩] [] [] 2 7 (by decide) (by decide)⟩

/-! ## Claim C10 -/

/-- C10: every `applyGenerators` pass ends by replacing a zero reverb or
chorus send (whether defaulted or explicitly written by a
`ReverbEffectsSend`/`ChorusEffectsSend` generator) with 1.0, so the pass
result always carries nonzero sends and every zone produced by
`getZonesForNote` has nonzero `reverbSend` and `chorusSend`. -/
theorem c10_sends_forced_nonzero :
    (∀ (ns : Nat) (gens : List Generator) (z : Zone),
        (applyGenerators ns gens z).reverbSend ≠ 0 ∧
        (applyGenerators ns gens z).chorusSend ≠ 0) ∧
    (∀ (ns : Nat) (gens : List Generator) (z : Zone),
        ((gens.foldl (applyGen ns) z).reverbSend = 0 →
          (applyGenerators ns gens z).reverbSend = 1) ∧
        ((gens.foldl (applyGen ns) z).chorusSend = 0 →
          (applyGenerators ns gens z).chorusSend = 1)) ∧
    (∀ (P : ParserState) (note vel bank program : Nat) (z : Zone),
        z ∈ getZonesForNote P note vel bank program →
        z.reverbSend ≠ 0 ∧ z.chorusSend ≠ 0) := by
  refine ⟨applyGenerators_sends_ne_zero, ?_, ?_⟩
  · intro ns gens z
    constructor <;> · intro h; unfold applyGenerators fixSends; simp [h]
  · intro P note vel bank program z hz
    obtain ⟨p, _, pz, _, inst, _, iz, _, _, _, _, hzeq⟩ := mem_getZonesForNote hz
    rw [hzeq]
    exact applyGenerators_sends_ne_zero _ _ _

theorem c10_sends_forced_nonzero_witness :
    Ex.z1 ∈ getZonesForNote Ex.P1 60 100 0 0 ∧
    (Ex.z1.reverbSend ≠ 0 ∧ Ex.z1.chorusSend ≠ 0) :=
  have hmem : Ex.z1 ∈ getZonesForNote Ex.P1 60 100 0 0 := by
    rw [show getZonesForNote Ex.P1 60 100 0 0 = [Ex.z1] from rfl]
    exact List.mem_singleton_self _
  ⟨hmem, c10_sends_forced_nonzero.2.2 Ex.P1 60 100 0 0 Ex.z1 hmem⟩

/-! ## Claim C4 -/

/-- C4: at the failing input `Ex.s4h`/`Ex.z4` (loop points
`startLoop = 100 > endLoop = 50` inside a 200-frame forward-loop sample),
`Voice::prepareStart` keeps `loopType = FORWARD_LOOP` with
`loopStart = 100 > loopEnd = 50`: the source's `loopStart < 0` and
`loopLength <= 0` validation tests are written over `uint32_t`, so the
claimed invariant `loopType ≠ NO_LOOP → loopStart < loopEnd` is not
enforced and the zone is not degraded to non-looping. -/
theorem c4_loop_validation_defeated :
    Ex.v4.loopType = FORWARD_LOOP ∧ Ex.v4.loopStart = 100 ∧
    Ex.v4.loopEnd = 50 ∧ Ex.v4.length = 200 ∧
    ¬(Ex.v4.loopStart < Ex.v4.loopEnd) := by
  decide

/-! ## Claim C6 -/

theorem getWantBank_lt (c : ChannelState) (hmsb : c.wantBankMSB < 128)
    (hlsb : c.wantBankLSB < 128) : getWantBank c < 16384 := by
  unfold getWantBank
  rw [Nat.shiftLeft_eq]
  have hc : c.wantBankMSB * 2 ^ 7 = 2 ^ 7 * c.wantBankMSB := by ring
  rw [hc, ← Nat.mul_add_lt_is_or (show c.wantBankLSB < 2 ^ 7 by omega) c.wantBankMSB]
  omega

/-- C6, counterexample: on a drum channel the "bank 0, same program" step is
skipped.  `Ex.P6` holds only preset (0,5); channel 9 requests (128,5):
`hasPreset(0,5)` is true, so the claimed chain would resolve to program 5 at
bank 0, but `applyBankProgram` leaves the channel at program 0, bank 0
(nothing matched its drum chain). -/
theorem c6_counterexample :
    hasPreset Ex.P6 128 5 = false ∧ hasPreset Ex.P6 0 5 = true ∧
    isDrumChannel 9 Ex.c6 = true ∧
    (applyBankProgram Ex.P6 9 Ex.c6).program = 0 ∧
    getBank (applyBankProgram Ex.P6 9 Ex.c6) = 0 ∧
    (applyBankProgram Ex.P6 9 Ex.c6).program ≠ 5 := by
  decide

/-- C6 (amended): a program change resolves the channel's (bank, program)
through `hasPreset`, first match wins, in this order: the requested
(bank, program); then — for non-drum channels only — bank 0 with the same
program; then program 0 at bank 0, or at the drum bank 128 for drum
channels; if no step matches, bank and program are left unchanged.  The
matching step stores the program and the 7-bit split of the bank. -/
theorem c6_fallback_chain (P : ParserState) (ch : Nat) (c : ChannelState)
    (hmsb : c.wantBankMSB < 128) (hlsb : c.wantBankLSB < 128) :
    (hasPreset P (getWantBank c) c.wantProgram = true →
      (applyBankProgram P ch c).program = c.wantProgram ∧
      getBank (applyBankProgram P ch c) = getWantBank c) ∧
    (hasPreset P (getWantBank c) c.wantProgram = false →
     isDrumChannel ch c = false → hasPreset P 0 c.wantProgram = true →
      (applyBankProgram P ch c).program = c.wantProgram ∧
      getBank (applyBankProgram P ch c) = 0) ∧
    (hasPreset P (getWantBank c) c.wantProgram = false →
     isDrumChannel ch c = true → hasPreset P 128 0 = true →
      (applyBankProgram P ch c).program = 0 ∧
      getBank (applyBankProgram P ch c) = 128) ∧
    (hasPreset P (getWantBank c) c.wantProgram = false →
     isDrumChannel ch c = false → hasPreset P 0 c.wantProgram = false →
     hasPreset P 0 0 = true →
      (applyBankProgram P ch c).program = 0 ∧
      getBank (applyBankProgram P ch c) = 0) ∧
    (hasPreset P (getWantBank c) c.wantProgram = false →
     isDrumChannel ch c = false → hasPreset P 0 c.wantProgram = false →
     hasPreset P 0 0 = false →
      (applyBankProgram P ch c).program = c.program ∧
      (applyBankProgram P ch c).bankMSB = c.bankMSB ∧
      (applyBankProgram P ch c).bankLSB = c.bankLSB) ∧
    (hasPreset P (getWantBank c) c.wantProgram = false →
     isDrumChannel ch c = true → hasPreset P 128 0 = false →
      (applyBankProgram P ch c).program = c.program ∧
      (applyBankProgram P ch c).bankMSB = c.bankMSB ∧
      (applyBankProgram P ch c).bankLSB = c.bankLSB) := by
  have hbank : getWantBank c < 16384 := getWantBank_lt c hmsb hlsb
  refine ⟨?_, ?_, ?_, ?_, ?_, ?_⟩
  · intro h1
    simp only [applyBankProgram]
    rw [if_pos h1]
    exact ⟨rfl, getBank_setBank _ _ hbank⟩
  · intro h1 hdrum h2
    simp only [applyBankProgram]
    rw [if_neg (by rw [h1]; exact Bool.false_ne_true),
        if_pos ⟨by rw [hdrum]; exact Bool.false_ne_true, h2⟩]
    exact ⟨rfl, getBank_setBank _ _ (by omega)⟩
  · intro h1 hdrum h2
    simp only [applyBankProgram]
    rw [if_neg (by rw [h1]; exact Bool.false_ne_true),
        if_neg (fun hc => hc.1 hdrum), hdrum,
        if_pos (show hasPreset P (if (true : Bool) then 128 else 0) 0 = true from h2)]
    exact ⟨rfl, getBank_setBank _ _ (by decide)⟩
  · intro h1 hdrum h2 h3
    simp only [applyBankProgram]
    rw [if_neg (by rw [h1]; exact Bool.false_ne_true),
        if_neg (fun hc => Bool.false_ne_true (h2 ▸ hc.2)), hdrum,
        if_pos (show hasPreset P (if (false : Bool) then 128 else 0) 0 = true from h3)]
    exact ⟨rfl, getBank_setBank _ _ (by decide)⟩
  · intro h1 hdrum h2 h3
    simp only [applyBankProgram]
    rw [if_neg (by rw [h1]; exact Bool.false_ne_true),
        if_neg (fun hc => Bool.false_ne_true (h2 ▸ hc.2)), hdrum,
        if_neg (show ¬hasPreset P (if (false : Bool) then 128 else 0) 0 = true by
          rw [show hasPreset P (if (false : Bool) then 128 else 0) 0 = hasPreset P 0 0 from rfl, h3]
          exact Bool.false_ne_true)]
    exact ⟨rfl, rfl, rfl⟩
  · intro h1 hdrum h2
    simp only [applyBankProgram]
    rw [if_neg (by rw [h1]; exact Bool.false_ne_true),
        if_neg (fun hc => hc.1 hdrum), hdrum,
        if_neg (show ¬hasPreset P (if (true : Bool) then 128 else 0) 0 = true by
          rw [show hasPreset P (if (true : Bool) then 128 else 0) 0 = hasPreset P 128 0 from rfl, h2]
          exact Bool.false_ne_true)]
    exact ⟨rfl, rfl, rfl⟩

theorem c6_fallback_chain_witness :
    hasPreset Ex.P6 256 5 = false ∧ isDrumChannel 0 Ex.c6m = false ∧
    hasPreset Ex.P6 0 5 = true ∧
    ((applyBankProgram Ex.P6 0 Ex.c6m).program = 5 ∧
     getBank (applyBankProgram Ex.P6 0 Ex.c6m) = 0) :=
  ⟨by decide, by decide, by decide,
    (c6_fallback_chain Ex.P6 0 Ex.c6m (by decide) (by decide)).2.1
      (by decide) (by decide) (by decide)⟩

/-! ## Claim C7 -/

theorem loadSamplesGo_isSome_of_fb (alloc : Nat → Bool) (f : SampleHeader) :
    ∀ (ss : List SampleHeader) (i : Nat),
      (loadSamplesGo alloc i (some f) ss).isSome := by
  intro ss
  induction ss with
  | nil => intro i; rfl
  | cons s rest ih =>
    intro i
    unfold loadSamplesGo
    split
    · rw [Option.isSome_map']; exact ih (i + 1)
    · split
      · rw [Option.isSome_map']; exact ih (i + 1)
      · rw [Option.isSome_map']; exact ih (i + 1)

theorem loadSamplesGo_none_iff (alloc : Nat → Bool) :
    ∀ (ss : List SampleHeader) (i : Nat),
      loadSamplesGo alloc i none ss = none ↔
        firstAllocOutcome alloc i ss = some false := by
  intro ss
  induction ss with
  | nil => intro i; simp [loadSamplesGo, firstAllocOutcome]
  | cons s rest ih =>
    intro i
    unfold loadSamplesGo firstAllocOutcome
    split
    · rw [Option.map_eq_none']
      exact ih (i + 1)
    · split
      · have h : (loadSamplesGo alloc (i + 1) (some (allocated i s)) rest).isSome :=
          loadSamplesGo_isSome_of_fb alloc (allocated i s) rest (i + 1)
        constructor
        · intro hmap
          rw [Option.map_eq_none'] at hmap
          rw [show loadSamplesGo alloc (i + 1) (some (allocated i s)) rest
              = loadSamplesGo alloc (i + 1)
                  (match (none : Option SampleHeader) with
                    | none => some (allocated i s)
                    | some f => some f) rest from rfl] at h
          rw [hmap] at h
          simp at h
        · intro hfa
          cases hfa
      · simp

theorem loadSamplesGo_alias (alloc : Nat → Bool) :
    ∀ (ss : List SampleHeader) (i : Nat) (fb : Option SampleHeader)
      (out : List SampleHeader),
      loadSamplesGo alloc i fb ss = some out →
      ∀ (k : Nat) (s : SampleHeader), ss[k]? = some s → sampleLen s ≠ 0 →
        alloc (i + k) = false →
        ∃ f, fbAfter alloc i fb (ss.take k) = some f ∧
             out[k]? = some (aliasTo f s) := by
  intro ss
  induction ss with
  | nil =>
    intro i fb out _ k s hk
    simp at hk
  | cons s0 rest ih =>
    intro i fb out hgo k s hk hlen halloc
    unfold loadSamplesGo at hgo
    split at hgo
    case isTrue hz =>
      obtain ⟨out', hgo', hout⟩ := Option.map_eq_some'.mp hgo
      match k with
      | 0 =>
        rw [List.getElem?_cons_zero] at hk
        exact absurd (Option.some_inj.mp hk ▸ hz) hlen
      | Nat.succ k' =>
        rw [List.getElem?_cons_succ] at hk
        have halloc' : alloc (i + 1 + k') = false := by
          have : i + 1 + k' = i + (k' + 1) := by omega
          rw [this]; exact halloc
        obtain ⟨f, hf, hout'⟩ := ih (i + 1) fb out' hgo' k' s hk hlen halloc'
        refine ⟨f, ?_, ?_⟩
        · rw [List.take_succ_cons]
          unfold fbAfter
          rw [if_pos hz]
          exact hf
        · rw [← hout, List.getElem?_cons_succ]
          exact hout'
    case isFalse hz =>
      split at hgo
      case isTrue ha =>
        obtain ⟨out', hgo', hout⟩ := Option.map_eq_some'.mp hgo
        match k with
        | 0 =>
          rw [Nat.add_zero] at halloc
          rw [halloc] at ha
          cases ha
        | Nat.succ k' =>
          rw [List.getElem?_cons_succ] at hk
          have halloc' : alloc (i + 1 + k') = false := by
            have : i + 1 + k' = i + (k' + 1) := by omega
            rw [this]; exact halloc
          obtain ⟨f, hf, hout'⟩ := ih (i + 1) _ out' hgo' k' s hk hlen halloc'
          refine ⟨f, ?_, ?_⟩
          · rw [List.take_succ_cons]
            unfold fbAfter
            rw [if_neg hz, if_pos ha]
            exact hf
          · rw [← hout, List.getElem?_cons_succ]
            exact hout'
      case isFalse ha =>
        cases fb with
        | none => cases hgo
        | some f0 =>
          obtain ⟨out', hgo', hout⟩ := Option.map_eq_some'.mp hgo
          match k with
          | 0 =>
            rw [List.getElem?_cons_zero] at hk
            refine ⟨f0, rfl, ?_⟩
            rw [← hout, List.getElem?_cons_zero, Option.some_inj.mp hk]
          | Nat.succ k' =>
            rw [List.getElem?_cons_succ] at hk
            have halloc' : alloc (i + 1 + k') = false := by
              have : i + 1 + k' = i + (k' + 1) := by omega
              rw [this]; exact halloc
            obtain ⟨f, hf, hout'⟩ := ih (i + 1) (some f0) out' hgo' k' s hk hlen halloc'
            refine ⟨f, ?_, ?_⟩
            · rw [List.take_succ_cons]
              unfold fbAfter
              rw [if_neg hz, if_neg ha]
              exact hf
            · rw [← hout, List.getElem?_cons_succ]
              exact hout'

/-- C7: the sample-loading loop fails as a whole exactly when the first
nonzero-length sample it reaches fails to allocate — that is, when an
allocation failure happens while no sample has ever succeeded; and whenever
the loop completes, every nonzero-length sample whose allocation failed
carries the buffer identity and all metadata of the fallback — the first
successfully loaded sample (`fbAfter … none` of the preceding prefix) — via
`aliasTo`, and loading continued. -/
theorem c7_alloc_failure_aliases_fallback :
    (∀ (alloc : Nat → Bool) (ss : List SampleHeader),
        loadSampleDataToMemory alloc ss = none ↔
        firstAllocOutcome alloc 0 ss = some false) ∧
    (∀ (alloc : Nat → Bool) (ss out : List SampleHeader),
        loadSampleDataToMemory alloc ss = some out →
        ∀ (k : Nat) (s : SampleHeader), ss[k]? = some s → sampleLen s ≠ 0 →
          alloc k = false →
          ∃ f, fbAfter alloc 0 none (ss.take k) = some f ∧
               out[k]? = some (aliasTo f s)) := by
  constructor
  · intro alloc ss
    exact loadSamplesGo_none_iff alloc ss 0
  · intro alloc ss out hgo k s hk hlen halloc
    exact loadSamplesGo_alias alloc ss 0 none out hgo k s hk hlen
      (by simpa using halloc)

theorem c7_alloc_failure_aliases_fallback_witness :
    (loadSampleDataToMemory Ex.allocNone Ex.ss7 = none) ∧
    (loadSampleDataToMemory Ex.alloc7 Ex.ss7 = some Ex.out7 ∧
     Ex.ss7[1]? = some { start := 0, sampleEnd := 5 } ∧
     (∃ f, fbAfter Ex.alloc7 0 none (Ex.ss7.take 1) = some f ∧
           Ex.out7[1]? = some (aliasTo f { start := 0, sampleEnd := 5 }))) :=
  ⟨(c7_alloc_failure_aliases_fallback.1 Ex.allocNone Ex.ss7).mpr (by decide),
   by decide, by decide,
   c7_alloc_failure_aliases_fallback.2 Ex.alloc7 Ex.ss7 Ex.out7 (by decide) 1
     { start := 0, sampleEnd := 5 } (by decide) (by decide) (by decide)⟩

/-! ## Scheduler lemmas -/

theorem adsrProcess_gate (e : Adsr) : (adsrProcess e).2.gate = e.gate := by
  unfold adsrProcess
  split
  · rfl
  · split
    · split <;> rfl
    · rfl
  · split <;> rfl
  · split <;> rfl

theorem adsrProcess_died (e : Adsr)
    (h : e.mode = ASeg.fastRelease ∨ e.mode = ASeg.idle) :
    (adsrProcess e).2.mode = ASeg.fastRelease ∨ (adsrProcess e).2.mode = ASeg.idle := by
  unfold adsrProcess
  split
  · exact h
  · rename_i heq; rw [heq] at h; simp at h
  · rename_i heq; rw [heq] at h; simp at h
  · split
    · right; rfl
    · exact h

theorem diedFast_die (v : Voice) : diedFast (die v) := ⟨rfl, rfl, Or.inl rfl⟩

theorem ctrlStep_refl (v : Voice) : ctrlStep v v := ⟨⟨rfl, rfl, rfl, rfl⟩, id⟩

theorem die_ctrl (v : Voice) : ctrlStep v (die v) :=
  ⟨⟨rfl, rfl, rfl, rfl⟩, fun _ => diedFast_die v⟩

theorem updateScore_ctrl (v : Voice) : ctrlStep v (updateScore v) := by
  unfold updateScore
  split
  · exact ⟨⟨rfl, rfl, rfl, rfl⟩, fun h => h⟩
  · refine ⟨⟨rfl, rfl, rfl, rfl⟩, fun h => ?_⟩
    obtain ⟨h1, h2, h3⟩ := h
    refine ⟨h1, ?_, adsrProcess_died _ h3⟩
    show (adsrProcess v.ampEnv).2.gate = false
    rw [adsrProcess_gate]; exact h2

theorem ctrlStep_trans {u v w : Voice} (h1 : ctrlStep u v) (h2 : ctrlStep v w) :
    ctrlStep u w :=
  ⟨⟨h2.1.1.trans h1.1.1, h2.1.2.1.trans h1.1.2.1,
    h2.1.2.2.1.trans h1.1.2.2.1, h2.1.2.2.2.trans h1.1.2.2.2⟩,
   fun h => h2.2 (h1.2 h)⟩

theorem forall₂_ctrl_refl : ∀ l : List Voice, List.Forall₂ ctrlStep l l := by
  intro l
  induction l with
  | nil => exact List.Forall₂.nil
  | cons v rest ih => exact List.Forall₂.cons (ctrlStep_refl v) ih

theorem forall₂_ctrl_trans :
    ∀ {l1 l2 l3 : List Voice}, List.Forall₂ ctrlStep l1 l2 →
      List.Forall₂ ctrlStep l2 l3 → List.Forall₂ ctrlStep l1 l3 := by
  intro l1 l2 l3 h1
  induction h1 generalizing l3 with
  | nil => intro h2; cases h2; exact List.Forall₂.nil
  | cons hvw hrest ih =>
    intro h2
    cases h2 with
    | cons hwz htail => exact List.Forall₂.cons (ctrlStep_trans hvw hwz) (ih htail)

theorem onPair_eq_of_sameBind {v w : Voice} (h : sameBind v w) (a b : Nat) :
    onPair a b w = onPair a b v := by
  unfold onPair
  rw [h.1, h.2.1, h.2.2.1]

theorem onPair_eq_true_iff (a b : Nat) (v : Voice) :
    onPair a b v = true ↔ v.active = true ∧ v.channel = a ∧ v.note = b := by
  unfold onPair
  simp [Bool.and_eq_true, beq_iff_eq, and_assoc]

theorem countOn_eq_of_forall₂ {vs ws : List Voice}
    (h : List.Forall₂ ctrlStep vs ws) (a b : Nat) :
    countOn ws a b = countOn vs a b := by
  induction h with
  | nil => rfl
  | cons hvw hrest ih =>
    simp only [countOn, List.countP_cons] at ih ⊢
    rw [onPair_eq_of_sameBind hvw.1, ih]

theorem countP_set_eq (p : Voice → Bool) :
    ∀ (l : List Voice) (i : Nat) (v d : Voice), i < l.length →
      (l.set i v).countP p + (if p (l.getD i d) then 1 else 0)
        = l.countP p + (if p v then 1 else 0) := by
  intro l
  induction l with
  | nil => intro i v d h; simp at h
  | cons a t ih =>
    intro i v d h
    cases i with
    | zero =>
      simp only [List.set_cons_zero, List.getD_cons_zero, List.countP_cons]
      omega
    | succ j =>
      simp only [List.set_cons_succ, List.getD_cons_succ, List.countP_cons]
      have := ih j v d (by simpa using Nat.lt_of_succ_lt_succ h)
      omega

theorem countP_set_le (p : Voice → Bool) :
    ∀ (l : List Voice) (i : Nat) (v : Voice),
      (l.set i v).countP p ≤ l.countP p + (if p v then 1 else 0) := by
  intro l
  induction l with
  | nil => intro i v; simp
  | cons a t ih =>
    intro i v
    cases i with
    | zero =>
      simp only [List.set_cons_zero, List.countP_cons]
      omega
    | succ j =>
      simp only [List.set_cons_succ, List.countP_cons]
      have := ih j v
      omega

theorem if_die_fields (c : Prop) [Decidable c] (v : Voice) :
    ((if c then die v else v).active = v.active) ∧
    ((if c then die v else v).channel = v.channel) ∧
    ((if c then die v else v).note = v.note) ∧
    ((if c then die v else v).exclusiveClass = v.exclusiveClass) := by
  split <;> exact ⟨rfl, rfl, rfl, rfl⟩

theorem if_die_ctrl (c : Prop) [Decidable c] (v : Voice) :
    ctrlStep v (if c then die v else v) := by
  split
  · exact die_ctrl v
  · exact ctrlStep_refl v

theorem findWeakestGo_forall₂ (ch n X : Nat) :
    ∀ (vs : List Voice) (idx count : Nat) (best : Option (Nat × ℚ)),
      List.Forall₂ ctrlStep vs (findWeakestGo ch n X idx count best vs).1 := by
  intro vs
  induction vs with
  | nil => intro idx count best; exact List.Forall₂.nil
  | cons v rest ih =>
    intro idx count best
    simp only [findWeakestGo]
    split
    · by_cases hc : (die v).active = true ∧ (die v).channel = ch ∧ (die v).note = n
      · rw [if_pos hc]
        exact List.Forall₂.cons
          (ctrlStep_trans (die_ctrl v) (updateScore_ctrl _))
          (ih (idx + 1) (count + 1) _)
      · rw [if_neg hc]
        exact List.Forall₂.cons (die_ctrl v) (ih (idx + 1) count best)
    · by_cases hc : v.active = true ∧ v.channel = ch ∧ v.note = n
      · rw [if_pos hc]
        exact List.Forall₂.cons (updateScore_ctrl v) (ih (idx + 1) (count + 1) _)
      · rw [if_neg hc]
        exact List.Forall₂.cons (ctrlStep_refl v) (ih (idx + 1) count best)

theorem findWorstGo_forall₂ :
    ∀ (vs : List Voice) (idx : Nat) (best : Option (Nat × ℚ)),
      List.Forall₂ ctrlStep vs (findWorstGo idx best vs).1 := by
  intro vs
  induction vs with
  | nil => intro idx best; exact List.Forall₂.nil
  | cons v rest ih =>
    intro idx best
    simp only [findWorstGo]
    split
    · exact List.Forall₂.cons (updateScore_ctrl v) (forall₂_ctrl_refl rest)
    · exact List.Forall₂.cons (updateScore_ctrl v) (ih (idx + 1) _)

theorem findWeakestGo_count (ch n X : Nat) :
    ∀ (vs : List Voice) (idx count : Nat) (best : Option (Nat × ℚ)),
      (findWeakestGo ch n X idx count best vs).2.1 = count + countOn vs ch n := by
  intro vs
  induction vs with
  | nil => intro idx count best; simp [findWeakestGo, countOn]
  | cons v rest ih =>
    intro idx count best
    simp only [findWeakestGo]
    split
    · by_cases hc : (die v).active = true ∧ (die v).channel = ch ∧ (die v).note = n
      · rw [if_pos hc]
        have hop : onPair ch n v = true :=
          (onPair_eq_true_iff ch n v).mpr ⟨hc.1, hc.2.1, hc.2.2⟩
        have h2 : countOn (v :: rest) ch n = countOn rest ch n + 1 := by
          unfold countOn
          rw [List.countP_cons, hop, if_pos rfl]
        have h3 : count + 1 + countOn rest ch n = count + countOn (v :: rest) ch n := by
          rw [h2]; omega
        exact (ih (idx + 1) (count + 1) _).trans h3
      · rw [if_neg hc]
        have hop : onPair ch n v = false := by
          cases h' : onPair ch n v
          · rfl
          · exact absurd ((onPair_eq_true_iff ch n v).mp h') hc
        have h2 : countOn (v :: rest) ch n = countOn rest ch n := by
          unfold countOn
          rw [List.countP_cons, hop, if_neg Bool.false_ne_true]
          exact Nat.add_zero _
        rw [h2]
        exact ih (idx + 1) count best
    · by_cases hc : v.active = true ∧ v.channel = ch ∧ v.note = n
      · rw [if_pos hc]
        have hop : onPair ch n v = true := (onPair_eq_true_iff ch n v).mpr hc
        have h2 : countOn (v :: rest) ch n = countOn rest ch n + 1 := by
          unfold countOn
          rw [List.countP_cons, hop, if_pos rfl]
        have h3 : count + 1 + countOn rest ch n = count + countOn (v :: rest) ch n := by
          rw [h2]; omega
        exact (ih (idx + 1) (count + 1) _).trans h3
      · rw [if_neg hc]
        have hop : onPair ch n v = false := by
          cases h' : onPair ch n v
          · rfl
          · exact absurd ((onPair_eq_true_iff ch n v).mp h') hc
        have h2 : countOn (v :: rest) ch n = countOn rest ch n := by
          unfold countOn
          rw [List.countP_cons, hop, if_neg Bool.false_ne_true]
          exact Nat.add_zero _
        rw [h2]
        exact ih (idx + 1) count best

theorem findWeakestGo_best_none (ch n X : Nat) :
    ∀ (vs : List Voice) (idx count : Nat) (best : Option (Nat × ℚ)),
      (findWeakestGo ch n X idx count best vs).2.2 = none →
      best = none ∧ (findWeakestGo ch n X idx count best vs).2.1 = count := by
  intro vs
  induction vs with
  | nil => intro idx count best h; exact ⟨h, rfl⟩
  | cons v rest ih =>
    intro idx count best
    rcases best with _ | ⟨j0, s0⟩
    · simp only [findWeakestGo]
      split
      · by_cases hc : (die v).active = true ∧ (die v).channel = ch ∧ (die v).note = n
        · rw [if_pos hc]
          intro h
          obtain ⟨hb', _⟩ := ih (idx + 1) (count + 1) _ h
          cases hb'
        · rw [if_neg hc]
          intro h
          exact ⟨trivial, (ih (idx + 1) count none h).2⟩
      · by_cases hc : v.active = true ∧ v.channel = ch ∧ v.note = n
        · rw [if_pos hc]
          intro h
          obtain ⟨hb', _⟩ := ih (idx + 1) (count + 1) _ h
          cases hb'
        · rw [if_neg hc]
          intro h
          exact ⟨trivial, (ih (idx + 1) count none h).2⟩
    · simp only [findWeakestGo]
      split
      · by_cases hc : (die v).active = true ∧ (die v).channel = ch ∧ (die v).note = n
        · rw [if_pos hc]
          intro h
          obtain ⟨hb', _⟩ := ih (idx + 1) (count + 1) _ h
          split at hb' <;> cases hb'
        · rw [if_neg hc]
          intro h
          obtain ⟨hb', _⟩ := ih (idx + 1) count (some (j0, s0)) h
          cases hb'
      · by_cases hc : v.active = true ∧ v.channel = ch ∧ v.note = n
        · rw [if_pos hc]
          intro h
          obtain ⟨hb', _⟩ := ih (idx + 1) (count + 1) _ h
          split at hb' <;> cases hb'
        · rw [if_neg hc]
          intro h
          obtain ⟨hb', _⟩ := ih (idx + 1) count (some (j0, s0)) h
          cases hb'

theorem resFst (a : List Voice) (b : Nat × Option (Nat × ℚ)) :
    (Prod.mk a b).1 = a := rfl

theorem findWeakestGo_best_some (ch n X : Nat) :
    ∀ (vs : List Voice) (idx count : Nat) (best : Option (Nat × ℚ)) (j : Nat) (sc : ℚ),
      (findWeakestGo ch n X idx count best vs).2.2 = some (j, sc) →
      best = some (j, sc) ∨
      (idx ≤ j ∧ j - idx < vs.length ∧
        onPair ch n ((findWeakestGo ch n X idx count best vs).1.getD (j - idx) {}) = true) := by
  intro vs
  induction vs with
  | nil => intro idx count best j sc h; exact Or.inl h
  | cons v rest ih =>
    intro idx count best j sc
    rcases best with _ | ⟨j0, s0⟩
    · simp only [findWeakestGo]
      split
      · by_cases hc : (die v).active = true ∧ (die v).channel = ch ∧ (die v).note = n
        · rw [if_pos hc]
          intro h
          rcases ih (idx + 1) (count + 1) _ j sc h with hb' | ⟨hj1, hj2, hop2⟩
          · injection hb' with h1
            injection h1 with h2 h3
            right
            refine ⟨Nat.le_of_eq h2, ?_, ?_⟩
            · rw [← h2, Nat.sub_self, List.length_cons]
              exact Nat.succ_pos _
            · rw [← h2, Nat.sub_self, resFst, List.getD_cons_zero]
              have e1 : onPair ch n (updateScore (die v)) = onPair ch n (die v) :=
                onPair_eq_of_sameBind (updateScore_ctrl (die v)).1 ch n
              have e2 : onPair ch n (die v) = onPair ch n v :=
                onPair_eq_of_sameBind (die_ctrl v).1 ch n
              exact (e1.trans e2).trans
                ((onPair_eq_true_iff ch n v).mpr ⟨hc.1, hc.2.1, hc.2.2⟩)
          · right
            refine ⟨by omega, ?_, ?_⟩
            · rw [List.length_cons]; omega
            · rw [resFst, show j - idx = (j - (idx + 1)) + 1 from by omega,
                List.getD_cons_succ]
              exact hop2
        · rw [if_neg hc]
          intro h
          rcases ih (idx + 1) count none j sc h with hb' | ⟨hj1, hj2, hop2⟩
          · cases hb'
          · right
            refine ⟨by omega, ?_, ?_⟩
            · rw [List.length_cons]; omega
            · rw [resFst, show j - idx = (j - (idx + 1)) + 1 from by omega,
                List.getD_cons_succ]
              exact hop2
      · by_cases hc : v.active = true ∧ v.channel = ch ∧ v.note = n
        · rw [if_pos hc]
          intro h
          rcases ih (idx + 1) (count + 1) _ j sc h with hb' | ⟨hj1, hj2, hop2⟩
          · injection hb' with h1
            injection h1 with h2 h3
            right
            refine ⟨Nat.le_of_eq h2, ?_, ?_⟩
            · rw [← h2, Nat.sub_self, List.length_cons]
              exact Nat.succ_pos _
            · rw [← h2, Nat.sub_self, resFst, List.getD_cons_zero]
              exact (onPair_eq_of_sameBind (updateScore_ctrl v).1 ch n).trans
                ((onPair_eq_true_iff ch n v).mpr hc)
          · right
            refine ⟨by omega, ?_, ?_⟩
            · rw [List.length_cons]; omega
            · rw [resFst, show j - idx = (j - (idx + 1)) + 1 from by omega,
                List.getD_cons_succ]
              exact hop2
        · rw [if_neg hc]
          intro h
          rcases ih (idx + 1) count none j sc h with hb' | ⟨hj1, hj2, hop2⟩
          · cases hb'
          · right
            refine ⟨by omega, ?_, ?_⟩
            · rw [List.length_cons]; omega
            · rw [resFst, show j - idx = (j - (idx + 1)) + 1 from by omega,
                List.getD_cons_succ]
              exact hop2
    · simp only [findWeakestGo]
      split
      · by_cases hc : (die v).active = true ∧ (die v).channel = ch ∧ (die v).note = n
        · rw [if_pos hc]
          intro h
          rcases ih (idx + 1) (count + 1) _ j sc h with hb' | ⟨hj1, hj2, hop2⟩
          · split at hb'
            · injection hb' with h1
              injection h1 with h2 h3
              right
              refine ⟨Nat.le_of_eq h2, ?_, ?_⟩
              · rw [← h2, Nat.sub_self, List.length_cons]
                exact Nat.succ_pos _
              · rw [← h2, Nat.sub_self, resFst, List.getD_cons_zero]
                have e1 : onPair ch n (updateScore (die v)) = onPair ch n (die v) :=
                  onPair_eq_of_sameBind (updateScore_ctrl (die v)).1 ch n
                have e2 : onPair ch n (die v) = onPair ch n v :=
                  onPair_eq_of_sameBind (die_ctrl v).1 ch n
                exact (e1.trans e2).trans
                  ((onPair_eq_true_iff ch n v).mpr ⟨hc.1, hc.2.1, hc.2.2⟩)
            · exact Or.inl hb'
          · right
            refine ⟨by omega, ?_, ?_⟩
            · rw [List.length_cons]; omega
            · rw [resFst, show j - idx = (j - (idx + 1)) + 1 from by omega,
                List.getD_cons_succ]
              exact hop2
        · rw [if_neg hc]
          intro h
          rcases ih (idx + 1) count (some (j0, s0)) j sc h with hb' | ⟨hj1, hj2, hop2⟩
          · exact Or.inl hb'
          · right
            refine ⟨by omega, ?_, ?_⟩
            · rw [List.length_cons]; omega
            · rw [resFst, show j - idx = (j - (idx + 1)) + 1 from by omega,
                List.getD_cons_succ]
              exact hop2
      · by_cases hc : v.active = true ∧ v.channel = ch ∧ v.note = n
        · rw [if_pos hc]
          intro h
          rcases ih (idx + 1) (count + 1) _ j sc h with hb' | ⟨hj1, hj2, hop2⟩
          · split at hb'
            · injection hb' with h1
              injection h1 with h2 h3
              right
              refine ⟨Nat.le_of_eq h2, ?_, ?_⟩
              · rw [← h2, Nat.sub_self, List.length_cons]
                exact Nat.succ_pos _
              · rw [← h2, Nat.sub_self, resFst, List.getD_cons_zero]
                exact (onPair_eq_of_sameBind (updateScore_ctrl v).1 ch n).trans
                  ((onPair_eq_true_iff ch n v).mpr hc)
            · exact Or.inl hb'
          · right
            refine ⟨by omega, ?_, ?_⟩
            · rw [List.length_cons]; omega
            · rw [resFst, show j - idx = (j - (idx + 1)) + 1 from by omega,
                List.getD_cons_succ]
              exact hop2
        · rw [if_neg hc]
          intro h
          rcases ih (idx + 1) count (some (j0, s0)) j sc h with hb' | ⟨hj1, hj2, hop2⟩
          · exact Or.inl hb'
          · right
            refine ⟨by omega, ?_, ?_⟩
            · rw [List.length_cons]; omega
            · rw [resFst, show j - idx = (j - (idx + 1)) + 1 from by omega,
                List.getD_cons_succ]
              exact hop2

theorem findWeakestGo_exclAll (ch n X : Nat) (hX : 0 < X) :
    ∀ (vs : List Voice) (idx count : Nat) (best : Option (Nat × ℚ)),
      exclAll ch X (findWeakestGo ch n X idx count best vs).1 := by
  intro vs
  induction vs with
  | nil =>
    intro idx count best w hw
    simp only [findWeakestGo] at hw
    exact absurd hw (List.not_mem_nil w)
  | cons v rest ih =>
    intro idx count best
    simp only [findWeakestGo]
    split
    case isTrue hd =>
      by_cases hc : (die v).active = true ∧ (die v).channel = ch ∧ (die v).note = n
      · rw [if_pos hc]
        intro w hw
        rcases List.mem_cons.mp hw with rfl | hw'
        · intro _ _ _
          exact (updateScore_ctrl (die v)).2 (diedFast_die v)
        · exact ih (idx + 1) (count + 1) _ w hw'
      · rw [if_neg hc]
        intro w hw
        rcases List.mem_cons.mp hw with rfl | hw'
        · intro _ _ _
          exact diedFast_die v
        · exact ih (idx + 1) count best w hw'
    case isFalse hd =>
      by_cases hc : v.active = true ∧ v.channel = ch ∧ v.note = n
      · rw [if_pos hc]
        intro w hw
        rcases List.mem_cons.mp hw with rfl | hw'
        · intro hact hch hXc
          have h1 : v.active = true := ((updateScore_ctrl v).1.1).symm.trans hact
          have h2 : v.channel = ch := ((updateScore_ctrl v).1.2.1).symm.trans hch
          have h3 : v.exclusiveClass = X := ((updateScore_ctrl v).1.2.2.2).symm.trans hXc
          exact absurd ⟨h1, h2, by rw [h3]; exact hX, h3⟩ hd
        · exact ih (idx + 1) (count + 1) _ w hw'
      · rw [if_neg hc]
        intro w hw
        rcases List.mem_cons.mp hw with rfl | hw'
        · intro hact hch hXc
          exact absurd ⟨hact, hch, by rw [hXc]; exact hX, hXc⟩ hd
        · exact ih (idx + 1) count best w hw'

theorem exclAll_of_forall₂ {ch X : Nat} {vs ws : List Voice}
    (h : List.Forall₂ ctrlStep vs ws) : exclAll ch X vs → exclAll ch X ws := by
  induction h with
  | nil => exact id
  | cons h1 h2 ih =>
    intro he w hw hact hch hXc
    rcases List.mem_cons.mp hw with rfl | hw'
    · exact h1.2 (he _ (List.mem_cons_self _ _) (h1.1.1.symm.trans hact)
        (h1.1.2.1.symm.trans hch) (h1.1.2.2.2.symm.trans hXc))
    · exact ih (fun u hu hu1 hu2 hu3 => he u (List.mem_cons_of_mem _ hu) hu1 hu2 hu3)
        w hw' hact hch hXc

theorem exclCut_of_forall₂ {ch X n : Nat} {vs ws : List Voice}
    (h : List.Forall₂ ctrlStep vs ws) : exclCut ch X n vs → exclCut ch X n ws := by
  induction h with
  | nil => exact id
  | cons h1 h2 ih =>
    intro he w hw hact hch hXc hnn
    rcases List.mem_cons.mp hw with rfl | hw'
    · exact h1.2 (he _ (List.mem_cons_self _ _) (h1.1.1.symm.trans hact)
        (h1.1.2.1.symm.trans hch) (h1.1.2.2.2.symm.trans hXc)
        (fun han => hnn (h1.1.2.2.1.trans han)))
    · exact ih (fun u hu h1' h2' h3' h4' => he u (List.mem_cons_of_mem _ hu) h1' h2' h3' h4')
        w hw' hact hch hXc hnn

theorem exclCut_of_exclAll {ch X n : Nat} {vs : List Voice} (he : exclAll ch X vs) :
    exclCut ch X n vs :=
  fun v hv h1 h2 h3 _ => he v hv h1 h2 h3

theorem exclCut_set {ch X n : Nat} (vs : List Voice) (i : Nat) (w : Voice)
    (hw : w.note = n) (he : exclCut ch X n vs) : exclCut ch X n (vs.set i w) := by
  intro v hv h1 h2 h3 h4
  rcases List.mem_or_eq_of_mem_set hv with hv' | rfl
  · exact he v hv' h1 h2 h3 h4
  · exact absurd hw h4

theorem pushNote_monoMode (c : ChannelState) (x : Nat) :
    (pushNote c x).monoMode = c.monoMode := by
  unfold pushNote
  split <;> rfl

theorem getD_mem_or_default (l : List ChannelState) (i : Nat) :
    l.getD i {} ∈ l ∨ l.getD i {} = ({} : ChannelState) := by
  by_cases hlt : i < l.length
  · left
    rw [List.getD_eq_getElem?_getD, List.getElem?_eq_getElem hlt]
    exact List.getElem_mem hlt
  · right
    rw [List.getD_eq_getElem?_getD, List.getElem?_eq_none (Nat.le_of_not_lt hlt)]
    rfl

theorem polyL_getD {l : List ChannelState}
    (h : ∀ c ∈ l, c.monoMode = MonoMode.Poly) (i : Nat) :
    (l.getD i {}).monoMode = MonoMode.Poly := by
  rcases getD_mem_or_default l i with hm | he
  · exact h _ hm
  · rw [he]

theorem allPoly_getD {s : SynthState} (h : allPoly s) (ch : Nat) :
    (s.channels.getD ch {}).monoMode = MonoMode.Poly :=
  polyL_getD h ch

theorem countP_congrB {l : List Voice} {p q : Voice → Bool} (h : ∀ x ∈ l, p x = q x) :
    List.countP p l = List.countP q l :=
  List.countP_congr fun x hx => by rw [h x hx]

theorem countOn_set_le_succ (vs : List Voice) (i : Nat) (w : Voice) (a b : Nat) :
    countOn (vs.set i w) a b ≤ countOn vs a b + 1 := by
  have h := countP_set_le (onPair a b) vs i w
  have h1 : (if onPair a b w = true then 1 else 0) ≤ 1 := by split <;> omega
  unfold countOn
  omega

theorem countOn_set_ne (vs : List Voice) (i : Nat) (w : Voice) (a b : Nat)
    (hw : onPair a b w = false) :
    countOn (vs.set i w) a b ≤ countOn vs a b := by
  have h := countP_set_le (onPair a b) vs i w
  rw [hw, if_neg Bool.false_ne_true] at h
  unfold countOn
  omega

theorem countOn_set_congr (vs : List Voice) (i : Nat) (w : Voice)
    (hi : i < vs.length)
    (hsame : ∀ a b : Nat, onPair a b w = onPair a b (vs.getD i {})) (a b : Nat) :
    countOn (vs.set i w) a b = countOn vs a b := by
  have h := countP_set_eq (onPair a b) vs i w {} hi
  rw [hsame a b] at h
  unfold countOn
  omega

theorem countOn_set_new (vs : List Voice) (i : Nat) (w : Voice) (ch note_ : Nat)
    (hw : onPair ch note_ w = true)
    (hcase : (i < vs.length ∧ onPair ch note_ (vs.getD i {}) = true) ∨
      countOn vs ch note_ < MAX_VOICES_PER_NOTE)
    (hb : pairBoundedL vs) :
    pairBoundedL (vs.set i w) := by
  intro a b
  rcases hcase with ⟨hlen, hop⟩ | hlt
  · have hfields := (onPair_eq_true_iff ch note_ (vs.getD i {})).mp hop
    have hwf := (onPair_eq_true_iff ch note_ w).mp hw
    have hsame : ∀ a' b' : Nat, onPair a' b' w = onPair a' b' (vs.getD i {}) := by
      intro a' b'
      unfold onPair
      rw [hfields.1, hfields.2.1, hfields.2.2, hwf.1, hwf.2.1, hwf.2.2]
    exact (countOn_set_congr vs i w hlen hsame a b).trans_le (hb a b)
  · by_cases hab : onPair a b w = true
    · obtain ⟨-, h2, h3⟩ := (onPair_eq_true_iff a b w).mp hab
      obtain ⟨-, h2', h3'⟩ := (onPair_eq_true_iff ch note_ w).mp hw
      have ha : ch = a := h2'.symm.trans h2
      have hbn : note_ = b := h3'.symm.trans h3
      rw [← ha, ← hbn]
      exact (countOn_set_le_succ vs i w ch note_).trans hlt
    · have hab' : onPair a b w = false := by
        cases h' : onPair a b w
        · rfl
        · exact absurd h' hab
      exact (countOn_set_ne vs i w a b hab').trans (hb a b)

theorem findWeakestVoiceOnNote_some (voices : List Voice) (ch n : Nat) (ns : ℚ) (X i : Nat)
    (h : (findWeakestVoiceOnNote voices ch n ns X).2 = some i) :
    MAX_VOICES_PER_NOTE ≤ countOn voices ch n ∧
    i < (findWeakestVoiceOnNote voices ch n ns X).1.length ∧
    onPair ch n ((findWeakestVoiceOnNote voices ch n ns X).1.getD i {}) = true := by
  simp only [findWeakestVoiceOnNote] at h ⊢
  split at h
  case isTrue hMAX =>
    rcases hm : (findWeakestGo ch n X 0 0 none voices).2.2 with _ | p
    · rw [hm] at h
      simp at h
    · obtain ⟨j, sc⟩ := p
      rw [hm] at h
      have h1 : j = i := by
        rw [Option.map_some'] at h
        injection h with h2
        try exact h2
      rcases findWeakestGo_best_some ch n X voices 0 0 none j sc hm
        with hb | ⟨-, hj2, hop⟩
      · cases hb
      · have hcnt := findWeakestGo_count ch n X voices 0 0 none
        have hlen := (findWeakestGo_forall₂ ch n X voices 0 0 none).length_eq
        refine ⟨by omega, by omega, ?_⟩
        rw [← h1]
        rw [Nat.sub_zero] at hop
        exact hop
  case isFalse hMAX =>
    simp at h

theorem findWeakestVoiceOnNote_none (voices : List Voice) (ch n : Nat) (ns : ℚ) (X : Nat)
    (h : (findWeakestVoiceOnNote voices ch n ns X).2 = none) :
    countOn voices ch n < MAX_VOICES_PER_NOTE := by
  simp only [findWeakestVoiceOnNote] at h
  have hcnt := findWeakestGo_count ch n X voices 0 0 none
  split at h
  case isTrue hMAX =>
    have hm : (findWeakestGo ch n X 0 0 none voices).2.2 = none := by
      rcases hm' : (findWeakestGo ch n X 0 0 none voices).2.2 with _ | p
      · rfl
      · rw [hm'] at h
        simp at h
    obtain ⟨-, hzero⟩ := findWeakestGo_best_none ch n X voices 0 0 none hm
    have hc0 : countOn voices ch n = 0 := by omega
    rw [hc0]
    decide
  case isFalse hMAX =>
    omega

theorem allocateVoice_forall₂ (voices : List Voice) (ch n : Nat) (ns : ℚ) (X : Nat) :
    List.Forall₂ ctrlStep voices (allocateVoice voices ch n ns X).1 := by
  simp only [allocateVoice]
  rcases hm : (findWeakestVoiceOnNote voices ch n ns X).2 with _ | i
  · exact forall₂_ctrl_trans (findWeakestGo_forall₂ ch n X voices 0 0 none)
      (findWorstGo_forall₂ _ 0 none)
  · exact findWeakestGo_forall₂ ch n X voices 0 0 none

theorem allocateVoice_spec (voices : List Voice) (ch n : Nat) (ns : ℚ) (X i : Nat)
    (h : (allocateVoice voices ch n ns X).2 = some i) :
    (i < (allocateVoice voices ch n ns X).1.length ∧
      onPair ch n ((allocateVoice voices ch n ns X).1.getD i {}) = true) ∨
    countOn voices ch n < MAX_VOICES_PER_NOTE := by
  simp only [allocateVoice] at h ⊢
  rcases hm : (findWeakestVoiceOnNote voices ch n ns X).2 with _ | j
  · exact Or.inr (findWeakestVoiceOnNote_none voices ch n ns X hm)
  · rw [hm] at h
    have h1 : j = i := by
      injection h with h2
      try exact h2
    obtain ⟨-, hlen, hop⟩ := findWeakestVoiceOnNote_some voices ch n ns X j hm
    subst h1
    exact Or.inl ⟨hlen, hop⟩

theorem allocateVoice_exclAll (voices : List Voice) (ch n : Nat) (ns : ℚ) (X : Nat)
    (hX : 0 < X) : exclAll ch X (allocateVoice voices ch n ns X).1 := by
  have h1 := findWeakestGo_exclAll ch n X hX voices 0 0 none
  simp only [allocateVoice]
  rcases hm : (findWeakestVoiceOnNote voices ch n ns X).2 with _ | i
  · exact exclAll_of_forall₂ (findWorstGo_forall₂ _ 0 none) h1
  · exact h1

theorem startZoneStep_channels (fo : FloatOracle) (ch note_ vel : Nat) (st : SynthState)
    (z : Zone) : (startZoneStep fo ch note_ vel st z).channels = st.channels := by
  simp only [startZoneStep]
  split
  · rfl
  · split <;> rfl

theorem startZones_channels (fo : FloatOracle) (ch note_ vel : Nat) :
    ∀ (zones : List Zone) (st : SynthState),
      (startZones fo ch note_ vel zones st).channels = st.channels := by
  intro zones
  induction zones with
  | nil => intro st; rfl
  | cons z rest ih =>
    intro st
    exact (ih (startZoneStep fo ch note_ vel st z)).trans
      (startZoneStep_channels fo ch note_ vel st z)

theorem startZoneStep_bound (fo : FloatOracle) (ch note_ vel : Nat) (st : SynthState)
    (z : Zone) (hb : pairBoundedL st.voices) :
    pairBoundedL (startZoneStep fo ch note_ vel st z).voices := by
  simp only [startZoneStep]
  split
  · exact hb
  · have hb1 : pairBoundedL (allocateVoice st.voices ch note_ ((vel : ℚ) / 127)
        z.exclusiveClass).1 := by
      intro a b
      exact (countOn_eq_of_forall₂ (allocateVoice_forall₂ st.voices ch note_
        ((vel : ℚ) / 127) z.exclusiveClass) a b).trans_le (hb a b)
    rcases hm : (allocateVoice st.voices ch note_ ((vel : ℚ) / 127) z.exclusiveClass).2
      with _ | i
    · exact hb1
    · have hcase := allocateVoice_spec st.voices ch note_ ((vel : ℚ) / 127)
        z.exclusiveClass i hm
      refine countOn_set_new _ i _ ch note_
        ((onPair_eq_true_iff _ _ _).mpr ⟨rfl, rfl, rfl⟩) ?_ hb1
      rcases hcase with h1 | h2
      · exact Or.inl h1
      · exact Or.inr ((countOn_eq_of_forall₂ (allocateVoice_forall₂ st.voices ch note_
          ((vel : ℚ) / 127) z.exclusiveClass) ch note_).trans_lt h2)

theorem startZones_bound (fo : FloatOracle) (ch note_ vel : Nat) :
    ∀ (zones : List Zone) (st : SynthState), pairBoundedL st.voices →
      pairBoundedL (startZones fo ch note_ vel zones st).voices := by
  intro zones
  induction zones with
  | nil => intro st h; exact h
  | cons z rest ih =>
    intro st h
    exact ih _ (startZoneStep_bound fo ch note_ vel st z h)

theorem startZoneStep_exclCut (fo : FloatOracle) (ch note_ vel X : Nat) (st : SynthState)
    (z : Zone) (he : exclCut ch X note_ st.voices) :
    exclCut ch X note_ (startZoneStep fo ch note_ vel st z).voices := by
  simp only [startZoneStep]
  split
  · exact he
  · have he1 : exclCut ch X note_ (allocateVoice st.voices ch note_ ((vel : ℚ) / 127)
        z.exclusiveClass).1 :=
      exclCut_of_forall₂ (allocateVoice_forall₂ st.voices ch note_
        ((vel : ℚ) / 127) z.exclusiveClass) he
    rcases hm : (allocateVoice st.voices ch note_ ((vel : ℚ) / 127) z.exclusiveClass).2
      with _ | i
    · exact he1
    · exact exclCut_set _ i _ rfl he1

theorem startZoneStep_exclCut_est (fo : FloatOracle) (ch note_ vel X : Nat)
    (st : SynthState) (z : Zone)
    (hs : z.sample ≠ none) (hzX : z.exclusiveClass = X) (hX : 0 < X) :
    exclCut ch X note_ (startZoneStep fo ch note_ vel st z).voices := by
  simp only [startZoneStep]
  split
  case isTrue h => exact absurd h hs
  case isFalse h =>
    have h1 : exclAll ch X (allocateVoice st.voices ch note_ ((vel : ℚ) / 127)
        z.exclusiveClass).1 := by
      rw [hzX]
      exact allocateVoice_exclAll st.voices ch note_ ((vel : ℚ) / 127) X hX
    rcases hm : (allocateVoice st.voices ch note_ ((vel : ℚ) / 127) z.exclusiveClass).2
      with _ | i
    · exact exclCut_of_exclAll h1
    · exact exclCut_set _ i _ rfl (exclCut_of_exclAll h1)

theorem startZones_exclCut (fo : FloatOracle) (ch note_ vel X : Nat) :
    ∀ (zones : List Zone) (st : SynthState), exclCut ch X note_ st.voices →
      exclCut ch X note_ (startZones fo ch note_ vel zones st).voices := by
  intro zones
  induction zones with
  | nil => intro st h; exact h
  | cons z rest ih =>
    intro st h
    exact ih _ (startZoneStep_exclCut fo ch note_ vel X st z h)

theorem startZones_exclCut_est (fo : FloatOracle) (ch note_ vel X : Nat) (hX : 0 < X) :
    ∀ (zones : List Zone) (st : SynthState),
      (∃ z ∈ zones, z.sample ≠ none ∧ z.exclusiveClass = X) →
      exclCut ch X note_ (startZones fo ch note_ vel zones st).voices := by
  intro zones
  induction zones with
  | nil =>
    intro st h
    rcases h with ⟨z, hz, -⟩
    exact absurd hz (List.not_mem_nil z)
  | cons z rest ih =>
    intro st h
    rcases h with ⟨z', hz', hprop⟩
    rcases List.mem_cons.mp hz' with rfl | hmem
    · exact startZones_exclCut fo ch note_ vel X rest _
        (startZoneStep_exclCut_est fo ch note_ vel X st z' hprop.1 hprop.2 hX)
    · exact ih _ ⟨z', hmem, hprop⟩

theorem noteOff_allPoly {s : SynthState} (h : allPoly s) (ch n : Nat) :
    allPoly (noteOff s ch n) := by
  simp only [noteOff]
  split
  · exact h
  · intro c hc
    rcases List.mem_or_eq_of_mem_set hc with h' | rfl
    · exact h c h'
    · exact allPoly_getD h ch

theorem noteOn_allPoly {s : SynthState} (h : allPoly s) (fo : FloatOracle)
    (ch n vel : Nat) : allPoly (noteOn fo s ch n vel) := by
  simp only [noteOn]
  split
  · exact noteOff_allPoly h ch n
  · split
    · exact h
    · split
      · exact h
      · split
        case isTrue h4 => exact absurd (allPoly_getD h ch) h4
        case isFalse =>
          have hall : ∀ c' ∈ s.channels.set ch (pushNote (s.channels.getD ch {}) n),
              c'.monoMode = MonoMode.Poly := by
            intro c' hc'
            rcases List.mem_or_eq_of_mem_set hc' with h'' | rfl
            · exact h c' h''
            · rw [pushNote_monoMode]
              exact allPoly_getD h ch
          intro c hc
          rw [startZones_channels] at hc
          rcases List.mem_or_eq_of_mem_set hc with h' | rfl
          · exact hall c h'
          · exact polyL_getD hall ch

theorem noteOff_pairBounded {s : SynthState} (hP : allPoly s) (hb : pairBoundedL s.voices)
    (ch n : Nat) : pairBoundedL (noteOff s ch n).voices := by
  simp only [noteOff]
  split
  · exact hb
  · intro a b
    refine le_trans (le_of_eq ?_) (hb a b)
    show List.countP (onPair a b) (List.map _ s.voices) = List.countP (onPair a b) s.voices
    rw [List.countP_map]
    refine countP_congrB fun v _ => ?_
    simp only [Function.comp_apply]
    split
    · rfl
    · split
      case isTrue h' => exact absurd (allPoly_getD hP ch) h'
      case isFalse =>
        split
        · unfold stopVoice
          split <;> rfl
        · rfl

theorem noteOn_pairBounded {s : SynthState} (hP : allPoly s) (hb : pairBoundedL s.voices)
    (fo : FloatOracle) (ch n vel : Nat) :
    pairBoundedL (noteOn fo s ch n vel).voices := by
  simp only [noteOn]
  split
  · exact noteOff_pairBounded hP hb ch n
  · split
    · exact hb
    · split
      · exact hb
      · split
        case isTrue h4 => exact absurd (allPoly_getD hP ch) h4
        case isFalse =>
          exact startZones_bound fo ch n vel _ _ hb

theorem noteOn_exclCut (fo : FloatOracle) (s : SynthState) (ch note_ vel X : Nat)
    (hvel : vel ≠ 0) (hch : ch < 16)
    (hpoly : (s.channels.getD ch {}).monoMode = MonoMode.Poly) (hX : 0 < X)
    (hz : ∃ z ∈ getZonesForNote s.parser note_ vel (getBank (s.channels.getD ch {}))
        (s.channels.getD ch {}).program, z.sample ≠ none ∧ z.exclusiveClass = X) :
    exclCut ch X note_ (noteOn fo s ch note_ vel).voices := by
  simp only [noteOn]
  split
  case isTrue h' => exact absurd h' hvel
  case isFalse =>
    split
    case isTrue h' => exact absurd h' (Nat.not_le.mpr hch)
    case isFalse =>
      split
      case isTrue h' =>
        rcases hz with ⟨z, hzm, -⟩
        rw [List.isEmpty_iff.mp h'] at hzm
        exact absurd hzm (List.not_mem_nil z)
      case isFalse =>
        split
        case isTrue h' => exact absurd hpoly h'
        case isFalse =>
          exact startZones_exclCut_est fo ch note_ vel X hX _ _ hz

theorem runOps_inv (fo : FloatOracle) :
    ∀ (ops : List SynthOp) (s : SynthState), onOffOnly ops = true →
      allPoly s → pairBoundedL s.voices →
      allPoly (runOps fo s ops) ∧ pairBoundedL (runOps fo s ops).voices := by
  intro ops
  induction ops with
  | nil => intro s _ h1 h2; exact ⟨h1, h2⟩
  | cons op rest ih =>
    intro s hoo h1 h2
    have hoo' : onOffOnly rest = true := by
      unfold onOffOnly at hoo ⊢
      simp only [List.all_cons, Bool.and_eq_true] at hoo
      exact hoo.2
    rcases op with ⟨ch, n, v⟩ | ⟨ch, n⟩ | ⟨ch, m⟩
    · exact ih (noteOn fo s ch n v) hoo' (noteOn_allPoly h1 fo ch n v)
        (noteOn_pairBounded h1 h2 fo ch n v)
    · exact ih (noteOff s ch n) hoo' (noteOff_allPoly h1 ch n)
        (noteOff_pairBounded h1 h2 ch n)
    · simp [onOffOnly] at hoo

/-! ## Claim C3 -/

/-- C3 (counterexample to the literal claim): after `noteOn` of note 12 on
channel 0, whose zone carries exclusive class 1, the sounding class-1 voice
on note 11 is still in the pool with its `active` flag set — `die()` only
forces a fast release (note released, gate cleared, fast-release segment) and
never clears `active`, so "no other active voice on C has
exclusiveClass == X" is false. -/
theorem c3_counterexample :
    Ex.s3post = noteOn Ex.foW Ex.s3pre 0 12 100 ∧
    (∃ z ∈ getZonesForNote Ex.P3 12 100 0 0,
      z.sample ≠ none ∧ z.exclusiveClass = 1) ∧
    Ex.v3died ∈ Ex.s3post.voices ∧
    Ex.v3died.active = true ∧
    Ex.v3died.channel = 0 ∧
    Ex.v3died.exclusiveClass = 1 ∧
    Ex.v3died.note = 11 ∧
    Ex.v3died.noteHeld = false ∧
    Ex.v3died.ampEnv.gate = false ∧
    Ex.v3died.ampEnv.mode = ASeg.fastRelease :=
  ⟨rfl, by decide,
   List.getElem?_mem (show Ex.s3post.voices[1]? = some Ex.v3died from rfl),
   rfl, rfl, rfl, rfl, rfl, rfl, rfl⟩

/-- C3 (amended): immediately after a Poly-mode `noteOn` whose resolved zones
include one with a sample and nonzero exclusive class `X`, every voice of the
pool that is active on the channel with class `X` and bound to a different
note has been cut off by `die()`: its note is released, its envelope gate is
cleared and its envelope is in the fast-release segment (or already idle) —
but its `active` flag is not cleared. -/
theorem c3_amended (fo : FloatOracle) (s : SynthState) (ch note_ vel X : Nat)
    (hvel : vel ≠ 0) (hch : ch < 16)
    (hpoly : (s.channels.getD ch {}).monoMode = MonoMode.Poly) (hX : 0 < X)
    (hz : ∃ z ∈ getZonesForNote s.parser note_ vel (getBank (s.channels.getD ch {}))
        (s.channels.getD ch {}).program, z.sample ≠ none ∧ z.exclusiveClass = X) :
    ∀ v ∈ (noteOn fo s ch note_ vel).voices, v.active = true → v.channel = ch →
      v.exclusiveClass = X → v.note ≠ note_ →
      v.noteHeld = false ∧ v.ampEnv.gate = false ∧
        (v.ampEnv.mode = ASeg.fastRelease ∨ v.ampEnv.mode = ASeg.idle) :=
  noteOn_exclCut fo s ch note_ vel X hvel hch hpoly hX hz

theorem c3_amended_witness :
    ((100 : Nat) ≠ 0 ∧ (0 : Nat) < 16 ∧
      ((initSynth Ex.foW Ex.P3).channels.getD 0 {}).monoMode = MonoMode.Poly ∧
      (0 : Nat) < 1 ∧
      (∃ z ∈ getZonesForNote (initSynth Ex.foW Ex.P3).parser 12 100
          (getBank ((initSynth Ex.foW Ex.P3).channels.getD 0 {}))
          ((initSynth Ex.foW Ex.P3).channels.getD 0 {}).program,
        z.sample ≠ none ∧ z.exclusiveClass = 1)) ∧
    (∀ v ∈ (noteOn Ex.foW (initSynth Ex.foW Ex.P3) 0 12 100).voices, v.active = true →
      v.channel = 0 → v.exclusiveClass = 1 → v.note ≠ 12 →
      v.noteHeld = false ∧ v.ampEnv.gate = false ∧
        (v.ampEnv.mode = ASeg.fastRelease ∨ v.ampEnv.mode = ASeg.idle)) :=
  ⟨⟨by decide, by decide, rfl, by decide, by decide⟩,
   c3_amended Ex.foW (initSynth Ex.foW Ex.P3) 0 12 100 1 (by decide) (by decide) rfl
     (by decide) (by decide)⟩

/-! ## Claim C5 -/

/-- C5 (counterexample to the literal claim): with mode changes allowed, the
per-pair cap fails.  From a pool within the cap (two layered voices on each
of notes 60 and 64), a switch to MonoLegato followed by a legato `noteOn`
retunes all four held voices to the new note via `updatePitchOnly`, so
(channel 0, note 70) ends with four active voices while
`MAX_VOICES_PER_NOTE = 2`. -/
theorem c5_counterexample :
    pairBounded Ex.s5mid ∧
    Ex.s5post = runOps Ex.foW Ex.s5mid
      [SynthOp.mode 0 MonoMode.MonoLegato, SynthOp.on 0 70 100] ∧
    MAX_VOICES_PER_NOTE < countOn Ex.s5post.voices 0 70 := by
  refine ⟨?_, rfl, by decide⟩
  intro a b
  have h0 : List.countP (onPair a b) (List.replicate (MAX_VOICES - 4) ({} : Voice)) = 0 := by
    rw [List.countP_eq_zero]
    intro v hv
    rw [List.eq_of_mem_replicate hv]
    simp [onPair]
  have key : countOn Ex.s5mid.voices a b =
      2 * (if onPair a b (Ex.vHeld 60) = true then 1 else 0) +
      2 * (if onPair a b (Ex.vHeld 64) = true then 1 else 0) := by
    unfold countOn
    show List.countP (onPair a b) (Ex.vHeld 60 :: Ex.vHeld 60 :: Ex.vHeld 64 ::
      Ex.vHeld 64 :: List.replicate (MAX_VOICES - 4) ({} : Voice)) = _
    rw [List.countP_cons, List.countP_cons, List.countP_cons, List.countP_cons, h0]
    omega
  rw [key]
  cases h1 : onPair a b (Ex.vHeld 60) <;> cases h2 : onPair a b (Ex.vHeld 64)
  · decide
  · decide
  · decide
  · have e1 : (60 : Nat) = b := ((onPair_eq_true_iff a b (Ex.vHeld 60)).mp h1).2.2
    have e2 : (64 : Nat) = b := ((onPair_eq_true_iff a b (Ex.vHeld 64)).mp h2).2.2
    omega

/-- C5 (amended): restricted to noteOn/noteOff sequences with every channel in
Poly mode, the per-(channel, note) active-voice bound `MAX_VOICES_PER_NOTE`
is an invariant of the scheduler: when the pair is already full, `noteOn`
steals the weakest same-note voice instead of allocating another. -/
theorem c5_amended (fo : FloatOracle) (s : SynthState) (ops : List SynthOp)
    (hops : onOffOnly ops = true) (hpoly : allPoly s) (hb : pairBounded s) :
    pairBounded (runOps fo s ops) :=
  (runOps_inv fo ops s hops hpoly hb).2

theorem c5_amended_witness :
    (onOffOnly [SynthOp.on 0 60 100, SynthOp.off 0 60] = true ∧
      allPoly Ex.s5init0 ∧ pairBounded Ex.s5init0) ∧
    pairBounded (runOps Ex.foW Ex.s5init0 [SynthOp.on 0 60 100, SynthOp.off 0 60]) :=
  have h1 : allPoly Ex.s5init0 := fun c hc => by
    rw [List.eq_of_mem_replicate hc]
  have h2 : pairBounded Ex.s5init0 := fun a b => Nat.zero_le _
  ⟨⟨rfl, h1, h2⟩,
   c5_amended Ex.foW Ex.s5init0 [SynthOp.on 0 60 100, SynthOp.off 0 60] rfl h1 h2⟩

/-! ## Claim C9 -/

/-- C9: `noteOn` with velocity zero is exactly `noteOff` — it resolves no
zones, starts no voice, and performs the note-off handling (the source's
first branch delegates unconditionally). -/
theorem c9_zero_velocity_noteOn_is_noteOff (fo : FloatOracle) (s : SynthState)
    (ch n : Nat) : noteOn fo s ch n 0 = noteOff s ch n := rfl

end SF2
